import Mathlib

/-!
A verification development for the LHNCBC questionnaire-version-converter
repository.  The JavaScript sources (qnvconv.js, qnvconv_common.js,
qnvconv_stu3_r4.js, qnvconv_r4_r5.js) are shallowly embedded below:
JavaScript objects become Lean structures with `Option` fields (absent key =
`none`), in-place mutation becomes explicit state passing, and the dynamic
`value[X]`/`answer[X]`/`initial[X]` key pattern becomes a tagged union `VX`
whose constructor determines the key suffix.  JavaScript object *identity*
(which JS function returns its argument itself versus a fresh
`JSON.parse(JSON.stringify(...))` deep copy) is tracked by an explicit
`aliased` flag in the chain executor.
-/

set_option maxHeartbeats 1000000

/-- A conversion message object as created by `createMsg` in
qnvconv_common.js: `{ctxId, status, text}`. -/
structure Msg where
  ctxId : String
  status : Int
  text : String
deriving Repr, DecidableEq

/-- An entry of a result object's `message` list.  The source normally pushes
`createMsg` objects, but two call sites in qnvconv_r4_r5.js push plain strings
(line 40: `extName + 'Missing valueX ...'`; line 174:
`createMsg(item, -1, 'Dropped ') + field`, which in JavaScript evaluates to the
string `"[object Object]" + field`).  `MsgE` represents both shapes. -/
inductive MsgE where
  | obj (m : Msg)
  | str (s : String)
deriving Repr, DecidableEq

/-- The status/message part of a result object (`ret`) as described in
`updateRetStatus` of qnvconv_common.js.  The `data` field of the source's
result objects is carried separately by each embedded function, since its type
differs per call site. -/
structure RStat where
  status : Int := 1
  message : Option (List MsgE) := none
deriving Repr, DecidableEq

/-- The third argument of `updateRetStatus`: either absent/undefined (falsy,
skipped by `if(message)`), a single message, or a list of messages. -/
inductive MsgArg where
  | noMsg
  | one (m : MsgE)
  | many (ms : List MsgE)
deriving Repr, DecidableEq

def MsgArg.toList : MsgArg → List MsgE
  | .noMsg => []
  | .one m => [m]
  | .many ms => ms

/-- `updateRetStatus(ret, status, message)` from qnvconv_common.js:
`ret.status` is lowered to `status` when `status < ret.status`, and `message`
(a single message, or spread when it is a list) is pushed onto `ret.message`,
creating the list when absent.  The function mutates and returns `ret`; here
the updated record is returned. -/
def RStat.update (r : RStat) (status : Int) (message : MsgArg) : RStat :=
  let r := if status < r.status then { r with status := status } else r
  match message with
  | .noMsg => r
  | m => { r with message := some ((r.message.getD []) ++ m.toList) }

/-- Merging a sub-result into an accumulating result:
`updateRetStatus(ret, subRet.status, subRet.message)`. -/
def RStat.mergeSub (r : RStat) (sub : RStat) : RStat :=
  r.update sub.status (match sub.message with
    | none => .noMsg
    | some ms => .many ms)

/-- JavaScript `a || b` on an optional string operand: an absent or empty
(falsy) string falls through to the alternative. -/
def strOr (a : Option String) (b : String) : String :=
  match a with
  | some s => if s = "" then b else s
  | none => b

/-- The context id computed by `createMsg(idOrCtx, ...)` when `idOrCtx` is an
object: `idOrCtx?.linkId || idOrCtx?.id || 'unknown'`. -/
def ctxIdOf (linkId id : Option String) : String :=
  strOr linkId (strOr id "unknown")

/-- JavaScript string coercion of an optional string (string concatenation
renders an absent value as `"undefined"`). -/
def jsStr (o : Option String) : String :=
  o.getD "undefined"

/-- JavaScript `s.startsWith(p)`. -/
def strStartsWith (s p : String) : Bool :=
  p.data.isPrefixOf s.data

/-- A FHIR Coding value (the fields this library ever reads or writes). -/
structure Coding where
  system : Option String := none
  code : Option String := none
  display : Option String := none
deriving Repr, DecidableEq

/-- A FHIR choice-type (`[x]`) value.  The constructor determines the dynamic
key suffix that the source discovers with
`Object.keys(obj).find(f => f.startsWith(aKeyPrefix))`. -/
inductive VX where
  | vBoolean (b : Bool)
  | vDecimal (s : String)
  | vInteger (n : Int)
  | vDate (s : String)
  | vDateTime (s : String)
  | vTime (s : String)
  | vString (s : String)
  | vUri (s : String)
  | vAttachment (s : String)
  | vCoding (c : Coding)
  | vQuantity (s : String)
  | vReference (s : String)
deriving Repr, DecidableEq

/-- The key suffix of a choice-type value: `answer[X]`, `value[X]` and
`initial[X]` keys all share these suffixes. -/
def VX.suffix : VX → String
  | .vBoolean _ => "Boolean"
  | .vDecimal _ => "Decimal"
  | .vInteger _ => "Integer"
  | .vDate _ => "Date"
  | .vDateTime _ => "DateTime"
  | .vTime _ => "Time"
  | .vString _ => "String"
  | .vUri _ => "Uri"
  | .vAttachment _ => "Attachment"
  | .vCoding _ => "Coding"
  | .vQuantity _ => "Quantity"
  | .vReference _ => "Reference"

/-- A FHIR extension object as used by this library: a `url` plus at most one
`value[X]` member among the kinds the converters read or write
(`valueCode`, `valueString`, `valueCoding`). -/
structure Extension where
  url : Option String := none
  valueCode : Option String := none
  valueString : Option String := none
  valueCoding : Option Coding := none
deriving Repr, DecidableEq

/-- `toIntVerExtUrl(fhirVer, ivePath)` from qnvconv_common.js. -/
def toIntVerExtUrl (fhirVer ivePath : String) : String :=
  "http://hl7.org/fhir/" ++ fhirVer ++ "/StructureDefinition/extension-" ++ ivePath

/-- `findIntVerExts(ele, fhirVer, extPathBase, field)` from qnvconv_common.js,
specialised to the single-field form used at every call site: filters the
element's extension list by exact URL match. -/
def findIntVerExts (exts : List Extension) (fhirVer pathBase field : String) :
    List Extension :=
  exts.filter (fun e => e.url = some (toIntVerExtUrl fhirVer (pathBase ++ "." ++ field)))

/-- The inter-version extension URL stem for a FHIR version (the
`intVerExtPrefix` local of `removeInterVerExts`). -/
def iveUrlStem (fhirVer : String) : String :=
  "http://hl7.org/fhir/" ++ fhirVer ++ "/StructureDefinition/extension-"

/-- `removeInterVerExts(ele, fhirVer)` from qnvconv_common.js: removes, in
order-preserving fashion, every extension whose url starts with the
version's inter-version-extension stem. -/
def removeInterVerExts (exts : List Extension) (fhirVer : String) : List Extension :=
  exts.filter (fun e => !(strStartsWith (e.url.getD "") (iveUrlStem fhirVer)))

/-- `addExtension(ele, ive)` from qnvconv_common.js: unconditional append,
creating the list when absent. -/
def addExtension (exts : List Extension) (ive : Extension) : List Extension :=
  exts ++ [ive]

/-- An `enableWhen` entry.  A valid resource carries at most one `answer[X]`
key, modelled by the single `answer` slot (so a write of `answerBoolean`
replaces any existing `answer[X]`, which in the source can only differ on
resources that invalidly carry two `answer[X]` keys at once). -/
structure EnableWhen where
  question : Option String := none
  hasAnswer : Option Bool := none
  operator : Option String := none
  answer : Option VX := none
deriving Repr, DecidableEq

/-- An entry of `item.option` (STU3) / `item.answerOption` (R4/R5). -/
structure AnswerOpt where
  value : Option VX := none
  initialSelected : Option Bool := none
deriving Repr, DecidableEq

/-- The STU3 `item.options` container: `{reference: ...}`. -/
structure RefObj where
  reference : Option String := none
deriving Repr, DecidableEq

/-- The per-node fields of a questionnaire item that the converters touch
(`item.item` children are carried by the `Item` tree below). -/
structure ItemData where
  linkId : Option String := none
  id : Option String := none
  type : Option String := none
  text : Option String := none
  enableWhen : Option (List EnableWhen) := none
  enableBehavior : Option String := none
  options : Option RefObj := none
  option : Option (List AnswerOpt) := none
  answerOption : Option (List AnswerOpt) := none
  answerValueSet : Option String := none
  answerConstraint : Option String := none
  disabledDisplay : Option String := none
  initialX : Option VX := none
  initial : Option (List VX) := none
  extension : List Extension := []
deriving Repr, DecidableEq

/-- A questionnaire item: node data plus the `item.item` children list
(an absent children key and an empty list behave identically in every
converter, which only ever iterates `item.item || []`). -/
inductive Item where
  | mk (d : ItemData) (items : List Item)
deriving Repr

def Item.data : Item → ItemData
  | .mk d _ => d

def Item.items : Item → List Item
  | .mk _ its => its

/-- A `meta.tag` entry. -/
structure Tag where
  code : Option String := none
  display : Option String := none
deriving Repr, DecidableEq

/-- The `meta` field of a questionnaire. -/
structure Meta where
  profile : Option (List String) := none
  tag : Option (List Tag) := none
deriving Repr, DecidableEq

/-- A questionnaire document (or, when `resourceType` is not
`"Questionnaire"`, an arbitrary resource that the converters pass through).
Fields the converters never touch are omitted; they ride along unchanged in
the source because every converter deep-copies and edits in place. -/
structure Questionnaire where
  resourceType : Option String := none
  id : Option String := none
  meta : Option Meta := none
  derivedFrom : Option (List String) := none
  versionAlgorithmCoding : Option Coding := none
  versionAlgorithmString : Option String := none
  copyrightLabel : Option String := none
  extension : List Extension := []
  item : List Item := []
deriving Repr

/-- Conversion options (see the converter function table in qnvconv.js):
`tag_conv` (default true) and `interVerExt` (default false).  `none` models an
absent key. -/
structure ConvOptions where
  tag_conv : Option Bool := none
  interVerExt : Option Bool := none
deriving Repr, DecidableEq

/-- A converter result object: `{status, data, message}`. -/
structure ConvResult where
  status : Int
  data : Option Questionnaire := none
  message : Option (List MsgE) := none
deriving Repr

/-- JavaScript string truthiness for an optional string field
(`if(item.answerConstraint)` etc.): present and non-empty. -/
def strTruthy (o : Option String) : Bool :=
  o.getD "" ≠ ""

/-- `if l.isEmpty then none else some l` — the `delete`-when-empty pattern
shared by the enableWhen converters. -/
def optOfList {α : Type} (l : List α) : Option α → Option (List α) :=
  fun _ => if l.isEmpty then none else some l

/-- The per-entry body of the `map` in `enableWhenR3ToR4`
(qnvconv_stu3_r4.js, lines 77-92).  Returns the transformed entry (`none`
when the source sets it to `null` to be filtered out) together with the loss
message the body records, if any. -/
def ewR3ToR4One (ctx : String) (ew : EnableWhen) : Option EnableWhen × Option MsgE :=
  match ew.hasAnswer with
  | some b =>
    (some { ew with hasAnswer := none, operator := some "exists",
                    answer := some (.vBoolean b) }, none)
  | none =>
    let ew := { ew with operator := some "=" }
    match ew.answer with
    | some a =>
      if a.suffix = "Uri" ∨ a.suffix = "Attachment" then
        (none, some (.obj ⟨ctx, -1, "answerUri or answerAttachment dropped from enableWhen "⟩))
      else (some ew, none)
    | none => (some ew, none)

/-- Folding the per-entry loss messages into a result the way the closure in
the source does: one `updateRetStatus(ret, -1, msg)` call per message. -/
def lossFold (r : RStat) (msgs : List MsgE) : RStat :=
  msgs.foldl (fun acc m => acc.update (-1) (.one m)) r

/-- `enableWhenR3ToR4(item)` from qnvconv_stu3_r4.js: converts the item's
enableWhen list in place; entries set to null are filtered out and the field
is deleted when the list becomes empty. -/
def enableWhenR3ToR4 (d : ItemData) : ItemData × RStat :=
  match d.enableWhen with
  | none => (d, {})
  | some [] => (d, {})
  | some ews =>
    let ctx := ctxIdOf d.linkId d.id
    let results := ews.map (ewR3ToR4One ctx)
    let kept := results.filterMap Prod.fst
    let r := lossFold {} (results.filterMap Prod.snd)
    ({ d with enableWhen := if kept.isEmpty then none else some kept }, r)

/-- `answerOptionsR3ToR4(item)` from qnvconv_stu3_r4.js: converts the STU3
`options` reference container and renames `option` to `answerOption`. -/
def answerOptionsR3ToR4 (d : ItemData) : ItemData × RStat :=
  let ctx := ctxIdOf d.linkId d.id
  let (d, r) :=
    match d.options with
    | some ref =>
      if strStartsWith (ref.reference.getD "") "http" then
        ({ d with answerValueSet := ref.reference, options := none },
         RStat.update {} 0 (.one (.obj ⟨ctx, 0, "Using item.options.reference as answerOption canonical."⟩)))
      else
        ({ d with options := none },
         RStat.update {} (-1) (.one (.obj ⟨ctx, -1, "Unable to convert item.options."⟩)))
    | none => (d, ({} : RStat))
  match d.option with
  | some opts => ({ d with answerOption := some opts, option := none }, r)
  | none => (d, r)

/-- The node-local part of `qnItemR3ToR4` (qnvconv_stu3_r4.js, lines 43-56):
enableWhen, answer options, then the scalar `initial[X]` becoming a
single-entry `initial` list. -/
def itemDataR3ToR4 (d : ItemData) : ItemData × RStat :=
  let (d, r1) := enableWhenR3ToR4 d
  let (d, r2) := answerOptionsR3ToR4 d
  let r := r1.mergeSub r2
  let d :=
    match d.initialX with
    | some v => { d with initial := some [v], initialX := none }
    | none => d
  (d, r)

/-- Combining a node-local conversion result with the children's results:
the converted children replace `item.item`, and each child's status/message
is merged via `updateRetStatus` (the recursion pattern shared by
`qnItemR3ToR4`, `qnItemR4ToR3` and `qnItemR5ToR4`). -/
def combineItem (p : ItemData × RStat) (conv : List (Item × RStat)) : Item × RStat :=
  (.mk p.1 (conv.map Prod.fst), conv.foldl (fun acc q => acc.mergeSub q.2) p.2)

mutual

/-- `qnItemR3ToR4(item)`: node-local rewrite, then recursion into
`item.item || []`, merging each sub-result. -/
def qnItemR3ToR4 : Item → Item × RStat
  | .mk d children => combineItem (itemDataR3ToR4 d) (qnItemsR3ToR4 children)

/-- The `for(let subItem of item.item || [])` recursion of `qnItemR3ToR4`. -/
def qnItemsR3ToR4 : List Item → List (Item × RStat)
  | [] => []
  | it :: rest => qnItemR3ToR4 it :: qnItemsR3ToR4 rest

end

/-- Converting a document's top-level item list the way the `for ... of`
loops in the doc-level converters do, merging each item's sub-result. -/
def convItemList (f : Item → Item × RStat) (items : List Item) :
    List Item × RStat :=
  items.foldl
    (fun acc it =>
      let (it2, s) := f it
      (acc.1 ++ [it2], acc.2.mergeSub s))
    ([], {})

/-- The non-Questionnaire soft-fail result shared by all four converters:
`{status: 0, data: qn, message: [createMsg(qn, 0, 'Not a Questionnaire resource')]}`. -/
def notQnResult (qn : Questionnaire) : ConvResult :=
  { status := 0, data := some qn,
    message := some [.obj ⟨ctxIdOf none qn.id, 0, "Not a Questionnaire resource"⟩] }

/-- `qnR3ToR4(r3qn)` from qnvconv_stu3_r4.js.  Note that this (older draft)
converter itself sets `meta.profile` and pushes a `lhc-qn-converter-STU3toR4`
tag, even though qnvconv.js stamps the final metadata again after the chain. -/
def qnR3ToR4 (qn : Questionnaire) : ConvResult :=
  if qn.resourceType ≠ some "Questionnaire" then notQnResult qn
  else
    let meta0 := qn.meta.getD {}
    let meta : Meta :=
      { meta0 with
        profile := some ["http://hl7.org/fhir/4.0/StructureDefinition/Questionnaire"],
        tag := some ((meta0.tag.getD []) ++ [⟨some "lhc-qn-converter-STU3toR4", none⟩]) }
    let qn := { qn with meta := some meta }
    let (items, r) := convItemList qnItemR3ToR4 qn.item
    { status := r.status, data := some { qn with item := items }, message := r.message }

/-- The per-entry body of the `map` in `enableWhenR4ToR3`
(qnvconv_stu3_r4.js, lines 212-224). -/
def ewR4ToR3One (ctx : String) (ew : EnableWhen) : Option EnableWhen × Option MsgE :=
  if ew.operator = some "exists" then
    let hb : Option Bool := match ew.answer with
      | some (.vBoolean b) => some b
      | _ => none
    let ew := { ew with hasAnswer := hb,
                        answer := match ew.answer with
                          | some (.vBoolean _) => none
                          | a => a }
    (some { ew with operator := none }, none)
  else if ew.operator ≠ some "=" then
    (none, some (.obj ⟨ctx, -1, "Unable to convert enableWhen with operator " ++ jsStr ew.operator⟩))
  else
    (some { ew with operator := none }, none)

/-- `enableWhenR4ToR3(item)` from qnvconv_stu3_r4.js. -/
def enableWhenR4ToR3 (d : ItemData) : ItemData × RStat :=
  match d.enableWhen with
  | none => (d, {})
  | some [] => (d, {})
  | some ews =>
    let ctx := ctxIdOf d.linkId d.id
    let results := ews.map (ewR4ToR3One ctx)
    let kept := results.filterMap Prod.fst
    let r := lossFold {} (results.filterMap Prod.snd)
    ({ d with enableWhen := if kept.isEmpty then none else some kept }, r)

/-- The per-option body of the `map` in `answerOptionsR4ToR3`
(qnvconv_stu3_r4.js, lines 250-261), returning the kept option (or `none`
for a dropped `valueReference` entry) plus the messages it records. -/
def optR4ToR3One (ctx : String) (opt : AnswerOpt) : Option AnswerOpt × List MsgE :=
  let (opt, msgs) :=
    if opt.initialSelected.isSome then
      ({ opt with initialSelected := none },
       [MsgE.obj ⟨ctx, -1, "deleted answerOption.initialSelected"⟩])
    else (opt, [])
  match opt.value with
  | some (.vReference _) =>
    (none, msgs ++ [.obj ⟨ctx, -1, "deleted answerOption.valueReference"⟩])
  | _ => (some opt, msgs)

/-- `answerOptionsR4ToR3(item)` from qnvconv_stu3_r4.js. -/
def answerOptionsR4ToR3 (d : ItemData) : ItemData × RStat :=
  let ctx := ctxIdOf d.linkId d.id
  let (d, r) :=
    match d.answerValueSet with
    | some s =>
      if s ≠ "" then
        ({ d with options := some ⟨some s⟩, answerValueSet := none },
         RStat.update {} 0 (.one (.obj ⟨ctx, 0, "Using item.answerValueSet as item.options.reference."⟩)))
      else (d, ({} : RStat))
    | none => (d, ({} : RStat))
  match d.answerOption with
  | none => (d, r)
  | some opts =>
    let results := opts.map (optR4ToR3One ctx)
    let kept := results.filterMap Prod.fst
    let r := lossFold r ((results.map Prod.snd).flatten)
    let r :=
      if kept.length < opts.length then
        r.update (-1) (.one (.obj ⟨ctx, -1, "answerOption entries with valueReference have been dropped."⟩))
      else r
    ({ d with option := if kept.length = 0 then none else some kept,
              answerOption := none }, r)

/-- The node-local part of `qnItemR4ToR3` (qnvconv_stu3_r4.js, lines 166-192):
enableBehavior, enableWhen, answer options, and flattening `initial[0]` to
the scalar `initial[X]` field (the `initial` key is deleted unconditionally).
The `Failed to convert item.initial[0` branch of the source requires an
`initial` entry with no `value` key at all, which the `VX`-typed model cannot
represent, so it does not appear here. -/
def itemDataR4ToR3 (d : ItemData) : ItemData × RStat :=
  let ctx := ctxIdOf d.linkId d.id
  let (d, r) :=
    if strTruthy d.enableBehavior then
      ({ d with enableBehavior := none },
       RStat.update {} (-1) (.one (.obj ⟨ctx, -1, "enableBehavior is not supported in STU3, deleted"⟩)))
    else (d, ({} : RStat))
  let (d, r) := (fun p : ItemData × RStat => (p.1, r.mergeSub p.2)) (enableWhenR4ToR3 d)
  let (d, r) := (fun p : ItemData × RStat => (p.1, r.mergeSub p.2)) (answerOptionsR4ToR3 d)
  let (d, r) :=
    match d.initial with
    | some (v :: rest) =>
      let d := { d with initialX := some v }
      let r :=
        if rest.isEmpty then r
        else r.update (-1) (.one (.obj ⟨ctx, -1, "All but the first item.initial have been dropped."⟩))
      (d, r)
    | _ => (d, r)
  ({ d with initial := none }, r)

mutual

/-- `qnItemR4ToR3(item)`: node-local rewrite then recursion into children. -/
def qnItemR4ToR3 : Item → Item × RStat
  | .mk d children => combineItem (itemDataR4ToR3 d) (qnItemsR4ToR3 children)

/-- The `for(let subItem of item.item || [])` recursion of `qnItemR4ToR3`. -/
def qnItemsR4ToR3 : List Item → List (Item × RStat)
  | [] => []
  | it :: rest => qnItemR4ToR3 it :: qnItemsR4ToR3 rest

end

/-- `qnR4ToR3(r4qn)` from qnvconv_stu3_r4.js.  Like `qnR3ToR4`, this older
draft stamps `meta` itself (profile + `lhc-qn-converter-R4toSTU3` tag). -/
def qnR4ToR3 (qn : Questionnaire) : ConvResult :=
  if qn.resourceType ≠ some "Questionnaire" then notQnResult qn
  else
    let meta0 := qn.meta.getD {}
    let meta : Meta :=
      { meta0 with
        profile := some ["http://hl7.org/fhir/stu3/StructureDefinition/Questionnaire"],
        tag := some ((meta0.tag.getD []) ++ [⟨some "lhc-qn-converter-R4toSTU3", none⟩]) }
    let qn := { qn with meta := some meta }
    let (items, r) := convItemList qnItemR4ToR3 qn.item
    let (qn, r) :=
      if qn.derivedFrom.isSome then
        ({ qn with item := items, derivedFrom := none },
         r.update (-1) (.one (.obj ⟨ctxIdOf none qn.id, -1, "derivedFrom is not supported in STU3, deleted"⟩)))
      else ({ qn with item := items }, r)
    { status := r.status, data := some qn, message := r.message }

/-- `item.answerOption?.length || item.answerValueSet` — whether the item has
answer options or an answer value set (qnvconv_r4_r5.js, line 132). -/
def hasAnswerList (d : ItemData) : Bool :=
  !(d.answerOption.getD []).isEmpty || strTruthy d.answerValueSet

/-- Appending the `answerConstraint` inter-version extension and deleting the
field (first iteration of the loop at qnvconv_r4_r5.js lines 164-176).
The recorded message is `createMsg(item, -1, 'Dropped ') + field`, which in
JavaScript is the string `"[object Object]answerConstraint"`. -/
def dropACWithIve (opts : ConvOptions) (p : ItemData × RStat) : ItemData × RStat :=
  let (d, r) := p
  if strTruthy d.answerConstraint then
    let d :=
      if opts.interVerExt = some true then
        { d with extension := (addExtension d.extension
            { url := some (toIntVerExtUrl "5.0" "Questionnaire.item.answerConstraint"),
              valueCode := d.answerConstraint }) }
      else d
    ({ d with answerConstraint := none },
     r.update (-1) (.one (.str ("[object Object]" ++ "answerConstraint"))))
  else (d, r)

/-- Same for `disabledDisplay` (second iteration of the same loop). -/
def dropDDWithIve (opts : ConvOptions) (p : ItemData × RStat) : ItemData × RStat :=
  let (d, r) := p
  if strTruthy d.disabledDisplay then
    let d :=
      if opts.interVerExt = some true then
        { d with extension := (addExtension d.extension
            { url := some (toIntVerExtUrl "5.0" "Questionnaire.item.disabledDisplay"),
              valueCode := d.disabledDisplay }) }
      else d
    ({ d with disabledDisplay := none },
     r.update (-1) (.one (.str ("[object Object]" ++ "disabledDisplay"))))
  else (d, r)

/-- The choice-type/answerConstraint decision tree of
`qnItemR5ToR4(item, options)` (qnvconv_r4_r5.js, lines 132-162). -/
def acTypeRewriteR5ToR4 (d : ItemData) : ItemData × RStat :=
  let ctx := ctxIdOf d.linkId d.id
  let (d, r) :=
    if hasAnswerList d then
      if d.type = some "coding" then
        if d.answerConstraint = some "optionsOrType" then
          ({ d with type := some "open-choice" },
           RStat.update {} 0 (.one (.obj ⟨ctx, 0, "optionsOrType with type coding is converted as open-choice"⟩)))
        else
          ({ d with
             type := some (if d.answerConstraint = some "optionsOrString" then "open-choice" else "choice"),
             answerConstraint := none }, ({} : RStat))
      else
        if strTruthy d.answerConstraint ∧ d.answerConstraint ≠ some "optionsOnly" then
          (d, RStat.update {} (-1) (.one (.obj ⟨ctx, -1,
            (d.answerConstraint.getD "") ++ ": non-coding, non-optionsOnly answerOption treated as options-only."⟩)))
        else
          ({ d with answerConstraint := none }, ({} : RStat))
    else if d.type = some "coding" then
      let newType :=
        if strTruthy d.answerConstraint ∧ d.answerConstraint ≠ some "optionsOnly" then "open-choice"
        else "choice"
      ({ d with type := some newType },
       RStat.update {} 0 (.one (.obj ⟨ctx, 0, "Item of type coding converted to " ++ newType⟩)))
    else if strTruthy d.answerConstraint then
      (d, RStat.update {} (-1) (.one (.obj ⟨ctx, -1,
        "Unable to handle answerConstraint without answerOption/answerValueSet for type " ++ jsStr d.type⟩)))
    else (d, ({} : RStat))
  (d, r)

/-- The node-local part of `qnItemR5ToR4(item, options)`
(qnvconv_r4_r5.js, lines 129-176): the decision tree followed by the
inter-version-extension drop loop over `answerConstraint` and
`disabledDisplay`. -/
def itemDataR5ToR4 (opts : ConvOptions) (d : ItemData) : ItemData × RStat :=
  dropDDWithIve opts (dropACWithIve opts (acTypeRewriteR5ToR4 d))

mutual

/-- `qnItemR5ToR4(item, options)`: node-local rewrite then recursion into
children, merging sub-results. -/
def qnItemR5ToR4 (opts : ConvOptions) : Item → Item × RStat
  | .mk d children => combineItem (itemDataR5ToR4 opts d) (qnItemsR5ToR4 opts children)

/-- The `for(let subItem of item.item || [])` recursion of `qnItemR5ToR4`. -/
def qnItemsR5ToR4 (opts : ConvOptions) : List Item → List (Item × RStat)
  | [] => []
  | it :: rest => qnItemR5ToR4 opts it :: qnItemsR5ToR4 opts rest

end

/-- The `versionAlgorithmCoding` iteration of the document-level drop loop of
`qnR5ToR4` (qnvconv_r4_r5.js, lines 104-117): preserve as an inter-version
extension when requested, then delete the field with a loss message.
(The message context is `createMsg(r4qn, ...)`, whose id the loop never
changes.) -/
def dropVACodingIve (opts : ConvOptions) (p : Questionnaire × RStat) :
    Questionnaire × RStat :=
  let (qn, r) := p
  if qn.versionAlgorithmCoding.isSome then
    let qn :=
      if opts.interVerExt = some true then
        { qn with extension := (addExtension qn.extension
            { url := some (toIntVerExtUrl "5.0" "Questionnaire.versionAlgorithm"),
              valueCoding := qn.versionAlgorithmCoding }) }
      else qn
    ({ qn with versionAlgorithmCoding := none },
     r.update (-1) (.one (.obj ⟨ctxIdOf none qn.id, -1, "Dropped " ++ "versionAlgorithmCoding"⟩)))
  else (qn, r)

/-- The `versionAlgorithmString` iteration of the same loop. -/
def dropVAStringIve (opts : ConvOptions) (p : Questionnaire × RStat) :
    Questionnaire × RStat :=
  let (qn, r) := p
  if qn.versionAlgorithmString.isSome then
    let qn :=
      if opts.interVerExt = some true then
        { qn with extension := (addExtension qn.extension
            { url := some (toIntVerExtUrl "5.0" "Questionnaire.versionAlgorithm"),
              valueString := qn.versionAlgorithmString }) }
      else qn
    ({ qn with versionAlgorithmString := none },
     r.update (-1) (.one (.obj ⟨ctxIdOf none qn.id, -1, "Dropped " ++ "versionAlgorithmString"⟩)))
  else (qn, r)

/-- The `copyrightLabel` iteration of the same loop. -/
def dropCLIve (opts : ConvOptions) (p : Questionnaire × RStat) :
    Questionnaire × RStat :=
  let (qn, r) := p
  if qn.copyrightLabel.isSome then
    let qn :=
      if opts.interVerExt = some true then
        { qn with extension := (addExtension qn.extension
            { url := some (toIntVerExtUrl "5.0" "Questionnaire.copyrightLabel"),
              valueString := qn.copyrightLabel }) }
      else qn
    ({ qn with copyrightLabel := none },
     r.update (-1) (.one (.obj ⟨ctxIdOf none qn.id, -1, "Dropped " ++ "copyrightLabel"⟩)))
  else (qn, r)

/-- `qnR5ToR4(r5qn, options)` from qnvconv_r4_r5.js: items first, then the
document-level fields `versionAlgorithmCoding`, `versionAlgorithmString` and
`copyrightLabel` are (optionally) preserved as inter-version extensions and
dropped, each with a loss message. -/
def qnR5ToR4 (opts : ConvOptions) (qn : Questionnaire) : ConvResult :=
  if qn.resourceType ≠ some "Questionnaire" then notQnResult qn
  else
    let (items, r) := convItemList (qnItemR5ToR4 opts) qn.item
    let (qn, r) := dropCLIve opts (dropVAStringIve opts (dropVACodingIve opts
      ({ qn with item := items }, r)))
    { status := r.status, data := some qn, message := r.message }

/-- The node-local part of `qnItemR4ToR5(item)` (qnvconv_r4_r5.js, lines
57-82): choice-type unification, recovery of `answerConstraint` and
`disabledDisplay` from matching 5.0 inter-version extensions (`item[field] =
ive.valueCode` — note this overwrites with `undefined`/`none` when the found
extension has no `valueCode`), then the mandatory strip of every 5.0-tagged
extension. -/
def itemDataR4ToR5 (d : ItemData) : ItemData :=
  let d :=
    if d.type = some "choice" then { d with type := some "coding" }
    else if d.type = some "open-choice" then
      { d with type := some "coding", answerConstraint := some "optionsOrString" }
    else d
  let d :=
    match (findIntVerExts d.extension "5.0" "Questionnaire.item" "answerConstraint").head? with
    | some ive => { d with answerConstraint := ive.valueCode }
    | none => d
  let d :=
    match (findIntVerExts d.extension "5.0" "Questionnaire.item" "disabledDisplay").head? with
    | some ive => { d with disabledDisplay := ive.valueCode }
    | none => d
  { d with extension := removeInterVerExts d.extension "5.0" }

mutual

/-- `qnItemR4ToR5(item)`: the source returns `{status: 1, data: item}` and
ignores the recursive calls' results, so the embedding is a plain tree map. -/
def qnItemR4ToR5 : Item → Item
  | .mk d children => .mk (itemDataR4ToR5 d) (qnItemsR4ToR5 children)

/-- The `for(let subItem of item.item || [])` recursion of `qnItemR4ToR5`. -/
def qnItemsR4ToR5 : List Item → List Item
  | [] => []
  | it :: rest => qnItemR4ToR5 it :: qnItemsR4ToR5 rest

end

/-- Recovery of `versionAlgorithm` at the document level (qnvconv_r4_r5.js,
lines 30-42, first loop iteration).  The source looks for the first of the
keys `valueCoding`/`valueString` on the found extension (in object key order;
extensions written by this library carry exactly one, and this model checks
`valueCoding` first), and assigns to `versionAlgorithm` + the key's suffix. -/
def recoverVersionAlgorithm (p : Questionnaire × RStat) : Questionnaire × RStat :=
  let (qn, r) := p
  match (findIntVerExts qn.extension "5.0" "Questionnaire" "versionAlgorithm").head? with
  | none => (qn, r)
  | some ive =>
    if ive.valueCoding.isSome then
      ({ qn with versionAlgorithmCoding := ive.valueCoding }, r)
    else if ive.valueString.isSome then
      ({ qn with versionAlgorithmString := ive.valueString }, r)
    else
      (qn, r.update 0 (.one (.str ("versionAlgorithm" ++ "Missing valueX for inter-version extension " ++ "versionAlgorithm"))))

/-- Recovery of `copyrightLabel` (second loop iteration).  For this field the
assigned name does not get the value key's suffix, so a (hand-crafted)
extension whose first value key is `valueCoding` would make the source store a
Coding under `copyrightLabel`; that value is not representable in this typed
model (this library itself always writes the extension with `valueString`),
and is modelled as clearing the field. -/
def recoverCopyrightLabel (p : Questionnaire × RStat) : Questionnaire × RStat :=
  let (qn, r) := p
  match (findIntVerExts qn.extension "5.0" "Questionnaire" "copyrightLabel").head? with
  | none => (qn, r)
  | some ive =>
    if ive.valueCoding.isSome then
      ({ qn with copyrightLabel := none }, r)
    else if ive.valueString.isSome then
      ({ qn with copyrightLabel := ive.valueString }, r)
    else
      (qn, r.update 0 (.one (.str ("copyrightLabel" ++ "Missing valueX for inter-version extension " ++ "copyrightLabel"))))

/-- `qnR4ToR5(r4qn)` from qnvconv_r4_r5.js.  Each item conversion returns
status 1 with no message (see `qnItemR4ToR5`), so the item loop's
`updateRetStatus` merges leave the result unchanged; only the document-level
recovery can record anything. -/
def qnR4ToR5 (qn : Questionnaire) : ConvResult :=
  if qn.resourceType ≠ some "Questionnaire" then notQnResult qn
  else
    let qn := { qn with item := qn.item.map qnItemR4ToR5 }
    let (qn, r) := recoverCopyrightLabel (recoverVersionAlgorithm (qn, {}))
    let qn := { qn with extension := removeInterVerExts qn.extension "5.0" }
    { status := r.status, data := some qn, message := r.message }

/-- The identifiers of the adjacent-step converter functions referenced by
`qnConverterTable` in qnvconv.js. -/
inductive Conv where
  | r3to4
  | r4to3
  | r4to5
  | r5to4
  | noop
deriving Repr, DecidableEq

/-- `qnNoOpConv(qn)` from qnvconv.js: `{status: 1, data: qn}` — it returns
the input object itself, without a deep copy. -/
def qnNoOpConv (qn : Questionnaire) : ConvResult :=
  { status := 1, data := some qn }

/-- Dispatch a converter identifier to the embedded function.  Only
`qnR5ToR4` declares an `options` parameter; the other converters are called
with it but ignore it. -/
def Conv.run (c : Conv) (qn : Questionnaire) (opts : ConvOptions) : ConvResult :=
  match c with
  | .r3to4 => qnR3ToR4 qn
  | .r4to3 => qnR4ToR3 qn
  | .r4to5 => qnR4ToR5 qn
  | .r5to4 => qnR5ToR4 opts qn
  | .noop => qnNoOpConv qn

/-- Whether a converter call returns its argument object itself (JavaScript
object identity): `qnNoOpConv` always does, and every real converter does so
on its wrong-resource-kind early return; otherwise the real converters return
a fresh `JSON.parse(JSON.stringify(...))` deep copy. -/
def Conv.aliases (c : Conv) (qn : Questionnaire) : Bool :=
  match c with
  | .noop => true
  | _ => qn.resourceType ≠ some "Questionnaire"

/-- An entry of `qnConverterTable` (qnvconv.js, lines 224-243); the `index`
field is the list position. -/
structure VEntry where
  ver : String
  up_conv : Option Conv := none
  down_conv : Option Conv := none
  profile : String
deriving Repr, DecidableEq

/-- `qnConverterTable` from qnvconv.js. -/
def qnConverterTable : List VEntry :=
  [ { ver := "STU3", up_conv := some .r3to4,
      profile := "http://hl7.org/fhir/3.0/StructureDefinition/Questionnaire" },
    { ver := "R4", up_conv := some .noop, down_conv := some .r4to3,
      profile := "http://hl7.org/fhir/4.0/StructureDefinition/Questionnaire" },
    { ver := "R4B", up_conv := some .r4to5, down_conv := some .noop,
      profile := "http://hl7.org/fhir/4.3/StructureDefinition/Questionnaire" },
    { ver := "R5", down_conv := some .r5to4,
      profile := "http://hl7.org/fhir/5.0/StructureDefinition/Questionnaire" } ]

/-- `qnConverterMap[v]?.index`: the lookup of a version token in the map
built from `qnConverterTable` by `reduce` (keys `STU3`, `R4`, `R4B`, `R5`). -/
def verIndex? (v : String) : Option Nat :=
  if v = "STU3" then some 0
  else if v = "R4" then some 1
  else if v = "R4B" then some 2
  else if v = "R5" then some 3
  else none

/-- `qnConverterTable[i]` (out-of-range access never happens on the paths the
source takes; the fallback entry stands in for JavaScript `undefined`). -/
def entryAt (i : Nat) : VEntry :=
  qnConverterTable.getD i { ver := "", profile := "" }

/-- The `vIndexChain` computed by `getConverter`:
`Array(Math.abs(vIndexTo-vIndexFr)).fill(0).map((_, i) => vIndexFr + (vIndexFr < vIndexTo ? i : -i))`. -/
def pathIdx (i j : Nat) : List Nat :=
  (List.range (max i j - min i j)).map (fun k => if i < j then i + k else i - k)

/-- `getConverter(vFrom, vTo)` from qnvconv.js, up to the list of adjacent
converter references it composes: `null` when `vFrom === vTo` or either
version is unregistered, otherwise the `up_conv` (ascending) or `down_conv`
(descending) column entries along the index chain.  The source then wraps the
list in `chainedConverter`, embedded separately below. -/
def getConverterChain (vFrom vTo : String) : Option (List (Option Conv)) :=
  if vFrom = vTo then none
  else
    match verIndex? vFrom, verIndex? vTo with
    | some i, some j =>
      some ((pathIdx i j).map
        (fun idx => if i < j then (entryAt idx).up_conv else (entryAt idx).down_conv))
    | _, _ => none

/-- `qnConverterMap[vTo].profile`. -/
def profileOf (v : String) : String :=
  match verIndex? v with
  | some i => (entryAt i).profile
  | none => ""

/-- The conversion-history tag built by `updateMeta`. -/
def convTag (vFrom vTo : String) : Tag :=
  { code := some ("lhc-qnvconv-" ++ vFrom ++ "-to-" ++ vTo),
    display := some ("Converted from " ++ vFrom ++ " to " ++ vTo ++
      " by the LHC Questionnaire Version Converter") }

/-- `updateMeta(qn, vFrom, vTo, options)` from qnvconv.js (lines 331-343):
replace all profiles with the target version's, and unless
`options?.tag_conv === false`, push the conversion-history tag. -/
def updateMeta (qn : Questionnaire) (vFrom vTo : String) (opts : ConvOptions) :
    Questionnaire :=
  let meta0 := qn.meta.getD {}
  let meta := { meta0 with profile := some [profileOf vTo] }
  let meta :=
    if opts.tag_conv ≠ some false then
      { meta with tag := some ((meta.tag.getD []) ++ [convTag vFrom vTo]) }
    else meta
  { qn with meta := some meta }

/-- The state threaded through `chainedConverter`'s loop: the current
`stepResult.data`, the accumulating `finalResult` status/messages, and
whether the current data is still the very object the caller passed in
(JavaScript aliasing; see `Conv.aliases`). -/
structure ChainState where
  data : Questionnaire
  stat : RStat
  aliased : Bool

/-- One iteration of `chainedConverter`'s loop:
`stepResult = converter(stepResult.data, options); updateRetStatus(finalResult, ...)`.
Every embedded converter sets `data`, so the `getD` fallback is never taken. -/
def runStep (opts : ConvOptions) (st : ChainState) (c : Conv) : ChainState :=
  let r := c.run st.data opts
  { data := r.data.getD st.data,
    stat := st.stat.update r.status (match r.message with
      | none => .noMsg
      | some ms => .many ms),
    aliased := st.aliased && c.aliases st.data }

/-- The outcome of a `chainedConverter(qnJson, options)` call, including the
aliasing facts needed to express mutation of the caller's input:
`inputAfter` is the value of the caller's argument object after the call
(changed exactly when the final data still aliases the input, since
`updateMeta` mutates the final data in place), and `resultAliasesInput` says
whether `result.data` is the very object passed in. -/
structure ChainOutput where
  result : ConvResult
  inputAfter : Questionnaire
  resultAliasesInput : Bool

/-- `chainedConverter` from qnvconv.js (lines 299-318): run the steps in
sequence from the caller's document, merge status/messages, then apply
`updateMeta` to the final data. -/
def chainedConverter (steps : List Conv) (vFrom vTo : String)
    (qn : Questionnaire) (opts : ConvOptions) : ChainOutput :=
  let fin := steps.foldl (runStep opts) { data := qn, stat := {}, aliased := true }
  let stamped := updateMeta fin.data vFrom vTo opts
  { result := { status := fin.stat.status, data := some stamped, message := fin.stat.message },
    inputAfter := if fin.aliased then stamped else qn,
    resultAliasesInput := fin.aliased }

/-- The chain steps actually executed for a version pair.  On every pair for
which `getConverterChain` succeeds, all column entries exist (see
`chain_entries_defined`), so the `filterMap` drops nothing. -/
def chainStepsOf (vFrom vTo : String) : List Conv :=
  ((getConverterChain vFrom vTo).getD []).filterMap id

/-- Running the converter returned by `getConverter(vFrom, vTo)` on a
document. -/
def runConversion (vFrom vTo : String) (qn : Questionnaire)
    (opts : ConvOptions) : ChainOutput :=
  chainedConverter (chainStepsOf vFrom vTo) vFrom vTo qn opts

/-- The two ways `convert` can throw: the explicit unsupported-version
`Error`, and the `TypeError` from invoking the `null` returned by
`getConverter` when `vFrom === vTo` (that case is not guarded). -/
inductive ConvError where
  | unsupportedVersion (msg : String)
  | nullConverterInvocation
deriving Repr, DecidableEq

/-- `convert(qnJson, vFrom, vTo, options)` from qnvconv.js (lines 358-364). -/
def convert (qn : Questionnaire) (vFrom vTo : String) (opts : ConvOptions) :
    Except ConvError ChainOutput :=
  if (verIndex? vFrom).isNone ∨ (verIndex? vTo).isNone then
    .error (.unsupportedVersion
      "Unsupported FHIR version. Versions currently supported are: STU3, R4, R4B, R5")
  else
    match getConverterChain vFrom vTo with
    | none => .error .nullConverterInvocation
    | some _ => .ok (runConversion vFrom vTo qn opts)

/-- Whether an enableWhen entry's comparison value is of kind URI or
attachment (the `answerX === 'answerUri' || answerX === 'answerAttachment'`
test of `enableWhenR3ToR4`). -/
def ewAnswerUriOrAtt (ew : EnableWhen) : Bool :=
  match ew.answer with
  | some a => a.suffix = "Uri" || a.suffix = "Attachment"
  | none => false

/-- The loss message recorded for an enableWhen entry dropped going up. -/
def ewUpLossMsg (ctx : String) : MsgE :=
  .obj ⟨ctx, -1, "answerUri or answerAttachment dropped from enableWhen "⟩

/-- The loss message recorded for an enableWhen entry dropped going down. -/
def ewDownLossMsg (ctx : String) (ew : EnableWhen) : MsgE :=
  .obj ⟨ctx, -1, "Unable to convert enableWhen with operator " ++ jsStr ew.operator⟩

/-- No extension in the list is tagged with FHIR version 5.0 (url prefixed by
`http://hl7.org/fhir/5.0/StructureDefinition/extension-`). -/
def extsClean (exts : List Extension) : Bool :=
  exts.all (fun e => !(strStartsWith (e.url.getD "") (iveUrlStem "5.0")))

mutual

/-- An item (tree) carries no 5.0-tagged extension. -/
def itemClean5 : Item → Bool
  | .mk d cs => extsClean d.extension && itemsClean5 cs

/-- `itemClean5` over a children list. -/
def itemsClean5 : List Item → Bool
  | [] => true
  | it :: rest => itemClean5 it && itemsClean5 rest

end

/-- The document and every item in it carry no 5.0-tagged extension. -/
def docClean5 (qn : Questionnaire) : Bool :=
  extsClean qn.extension && qn.item.all itemClean5

/-- An `answerConstraint` value legal in R5 (or absent). -/
def acEnumOk (o : Option String) : Bool :=
  o = none || o = some "optionsOnly" || o = some "optionsOrType" || o = some "optionsOrString"

/-- Node-level validity of an R5 item for the round-trip theorem: an R5 item
type (R5 has no `choice`/`open-choice`), a legal `answerConstraint`, and no
same-version (5.0) inter-version extensions. -/
def itemDataR5Ok (d : ItemData) : Bool :=
  (d.type ≠ some "choice") && (d.type ≠ some "open-choice") &&
    acEnumOk d.answerConstraint && extsClean d.extension

mutual

/-- Tree-level validity of an R5 item. -/
def itemR5Ok : Item → Bool
  | .mk d cs => itemDataR5Ok d && itemsR5Ok cs

/-- `itemR5Ok` over a children list. -/
def itemsR5Ok : List Item → Bool
  | [] => true
  | it :: rest => itemR5Ok it && itemsR5Ok rest

end

/-- Validity of an R5 questionnaire for the round-trip theorem: it is a
Questionnaire, carries at most one `versionAlgorithm[x]` encoding, and
neither the document nor any item carries a same-version (5.0) inter-version
extension (per https://build.fhir.org/versions.html#extensions such an
extension is an error in an R5 resource; the code comments assume valid
input). -/
def r5DocOk (qn : Questionnaire) : Bool :=
  (qn.resourceType = some "Questionnaire") &&
    !(qn.versionAlgorithmCoding.isSome && qn.versionAlgorithmString.isSome) &&
    extsClean qn.extension && qn.item.all itemR5Ok

/-- The `answerConstraint` the R5→R4→R5 round trip can reproduce: the
original value, except that an explicit `"optionsOnly"` on an item that has
answer options (or an answer value set) is deleted without an inter-version
extension by `qnItemR5ToR4` and therefore comes back absent. -/
def expectedAC (d : ItemData) : Option String :=
  if d.answerConstraint = some "optionsOnly" ∧ hasAnswerList d then none
  else d.answerConstraint

mutual

/-- The pre-order list of `answerConstraint` values of an item tree. -/
def itemACs : Item → List (Option String)
  | .mk d cs => d.answerConstraint :: itemACsList cs

/-- `itemACs` over a children list, concatenated. -/
def itemACsList : List Item → List (Option String)
  | [] => []
  | it :: rest => itemACs it ++ itemACsList rest

end

mutual

/-- The pre-order list of round-trip-expected `answerConstraint` values. -/
def itemExpACs : Item → List (Option String)
  | .mk d cs => expectedAC d :: itemExpACsList cs

/-- `itemExpACs` over a children list, concatenated. -/
def itemExpACsList : List Item → List (Option String)
  | [] => []
  | it :: rest => itemExpACs it ++ itemExpACsList rest

end

/-- Pre-order `answerConstraint` values of a document's item list. -/
def itemsACs (l : List Item) : List (Option String) :=
  (l.map itemACs).flatten

/-- Pre-order round-trip-expected `answerConstraint` values. -/
def itemsExpACs (l : List Item) : List (Option String) :=
  (l.map itemExpACs).flatten

/-- Options with inter-version-extension preservation enabled. -/
def iveOn : ConvOptions := { interVerExt := some true }

/-- Converting R5→R4 with inter-version-extension preservation enabled, then
converting the result R4→R5 (both through the engine's chained converter,
metadata stamp included). -/
def r5RoundTrip (qn : Questionnaire) (opts2 : ConvOptions) : Questionnaire :=
  let mid := (runConversion "R5" "R4" qn iveOn).result.data.getD qn
  (runConversion "R4" "R5" mid opts2).result.data.getD mid

/-- The codes of the conversion result's `meta.tag` list. -/
def resultTagCodes (out : ChainOutput) : List (Option String) :=
  ((out.result.data.map (fun q => (q.meta.getD {}).tag.getD [])).getD []).map Tag.code

/-- A minimal STU3 questionnaire (used as a concrete input). -/
def qnSTU3demo : Questionnaire :=
  { resourceType := some "Questionnaire", id := some "q0" }

/-- A minimal R4 questionnaire (used as a concrete input). -/
def qnR4demo : Questionnaire :=
  { resourceType := some "Questionnaire", id := some "q1" }

/-- A resource that is not a Questionnaire (used as a concrete input). -/
def qnPatientDemo : Questionnaire :=
  { resourceType := some "Patient", id := some "p1" }

/-- R5 questionnaire with an item whose `answerConstraint` is the explicit
default `"optionsOnly"` next to answer options — the round-trip
counterexample input. -/
def qnC3bad : Questionnaire :=
  { resourceType := some "Questionnaire", id := some "qx",
    item := [.mk { linkId := some "/a", type := some "coding",
                   answerOption := some [{ value := some (.vCoding { code := some "c" }) }],
                   answerConstraint := some "optionsOnly" } []] }

/-- R5 questionnaire exercising `versionAlgorithmCoding`, `copyrightLabel`
and an item-level `optionsOrType` constraint — the round-trip witness
input. -/
def qnC3good : Questionnaire :=
  { resourceType := some "Questionnaire", id := some "qg",
    versionAlgorithmCoding := some { code := some "semver" },
    copyrightLabel := some "NLM",
    item := [.mk { linkId := some "/X-002", type := some "coding",
                   answerOption := some [{ value := some (.vCoding { code := some "a" }) }],
                   answerConstraint := some "optionsOrType" } []] }

/-- STU3 item with a `hasAnswer: true` enableWhen condition (C4 scenario). -/
def itemC4demo : ItemData :=
  { linkId := some "/X-011",
    enableWhen := some [{ question := some "/X-010", hasAnswer := some true }] }

/-- R4 item with an enableWhen condition using operator `">"` (C5 scenario). -/
def itemC5demo : ItemData :=
  { linkId := some "/X-006",
    enableWhen := some [{ question := some "/X-005", operator := some ">",
                          answer := some (.vInteger 5) }] }

/-- R5 coding item with constraint `optionsOrType` and answer options
(C6 scenario). -/
def itemC6demo : ItemData :=
  { linkId := some "/X-010", type := some "coding",
    answerConstraint := some "optionsOrType",
    answerOption := some [{ value := some (.vCoding { code := some "mex" }) }] }

theorem Item.inductionOn {P : Item → Prop}
    (h : ∀ d children, (∀ c ∈ children, P c) → P (Item.mk d children)) :
    ∀ it, P it := by
  intro it
  have key : ∀ (n : Nat) (it : Item), sizeOf it ≤ n → P it := by
    intro n
    induction n with
    | zero =>
      intro it hle
      cases it with
      | mk d cs => simp [Item.mk.sizeOf_spec] at hle
    | succ n ih =>
      intro it hle
      cases it with
      | mk d cs =>
        apply h
        intro c hc
        apply ih
        have := List.sizeOf_lt_of_mem hc
        simp [Item.mk.sizeOf_spec] at hle
        omega
  exact key (sizeOf it) it le_rfl

theorem qnItemsR5ToR4_eq (opts : ConvOptions) (cs : List Item) :
    qnItemsR5ToR4 opts cs = cs.map (qnItemR5ToR4 opts) := by
  induction cs with
  | nil => rfl
  | cons it rest ih => rw [qnItemsR5ToR4, ih, List.map_cons]

theorem qnItemsR4ToR5_eq (cs : List Item) :
    qnItemsR4ToR5 cs = cs.map qnItemR4ToR5 := by
  induction cs with
  | nil => rfl
  | cons it rest ih => rw [qnItemsR4ToR5, ih, List.map_cons]

theorem itemACsList_eq (cs : List Item) :
    itemACsList cs = (cs.map itemACs).flatten := by
  induction cs with
  | nil => rfl
  | cons it rest ih => rw [itemACsList, ih, List.map_cons, List.flatten_cons]

theorem itemExpACsList_eq (cs : List Item) :
    itemExpACsList cs = (cs.map itemExpACs).flatten := by
  induction cs with
  | nil => rfl
  | cons it rest ih => rw [itemExpACsList, ih, List.map_cons, List.flatten_cons]

theorem itemsClean5_eq (cs : List Item) :
    itemsClean5 cs = cs.all itemClean5 := by
  induction cs with
  | nil => rfl
  | cons it rest ih => rw [itemsClean5, ih, List.all_cons]

theorem itemsR5Ok_eq (cs : List Item) :
    itemsR5Ok cs = cs.all itemR5Ok := by
  induction cs with
  | nil => rfl
  | cons it rest ih => rw [itemsR5Ok, ih, List.all_cons]

theorem qnItemR5ToR4_mk (opts : ConvOptions) (d : ItemData) (cs : List Item) :
    qnItemR5ToR4 opts (.mk d cs) =
      ((.mk (itemDataR5ToR4 opts d).1 (cs.map (fun c => (qnItemR5ToR4 opts c).1))),
       (cs.map (fun c => (qnItemR5ToR4 opts c).2)).foldl RStat.mergeSub
         (itemDataR5ToR4 opts d).2) := by
  rw [qnItemR5ToR4, qnItemsR5ToR4_eq]
  unfold combineItem
  simp only [List.map_map, List.foldl_map]
  rfl

theorem qnItemR4ToR5_mk (d : ItemData) (cs : List Item) :
    qnItemR4ToR5 (.mk d cs) = .mk (itemDataR4ToR5 d) (cs.map qnItemR4ToR5) := by
  rw [qnItemR4ToR5, qnItemsR4ToR5_eq]

theorem itemACs_mk (d : ItemData) (cs : List Item) :
    itemACs (.mk d cs) = d.answerConstraint :: (cs.map itemACs).flatten := by
  rw [itemACs, itemACsList_eq]

theorem itemExpACs_mk (d : ItemData) (cs : List Item) :
    itemExpACs (.mk d cs) = expectedAC d :: (cs.map itemExpACs).flatten := by
  rw [itemExpACs, itemExpACsList_eq]

theorem itemClean5_mk (d : ItemData) (cs : List Item) :
    itemClean5 (.mk d cs) = (extsClean d.extension && cs.all itemClean5) := by
  rw [itemClean5, itemsClean5_eq]

theorem itemR5Ok_mk (d : ItemData) (cs : List Item) :
    itemR5Ok (.mk d cs) = (itemDataR5Ok d && cs.all itemR5Ok) := by
  rw [itemR5Ok, itemsR5Ok_eq]

theorem RStat.update_status (r : RStat) (s : Int) (m : MsgArg) :
    (RStat.update r s m).status = min r.status s := by
  cases r with
  | mk st msg =>
    cases m <;> simp only [RStat.update] <;> split <;> simp <;> omega

theorem RStat.update_message (r : RStat) (s : Int) (m : MsgArg) :
    ((RStat.update r s m).message.getD []) = (r.message.getD []) ++ m.toList := by
  cases r with
  | mk st msg =>
    cases m <;> simp only [RStat.update, MsgArg.toList] <;> split <;> simp

theorem lossFold_status (r : RStat) (ms : List MsgE) :
    (lossFold r ms).status = if ms.isEmpty then r.status else min r.status (-1) := by
  induction ms generalizing r with
  | nil => simp [lossFold]
  | cons m ms ih =>
    have step : lossFold r (m :: ms) = lossFold (r.update (-1) (.one m)) ms := rfl
    rw [step, ih, RStat.update_status]
    cases ms <;> simp <;> omega

theorem lossFold_message (r : RStat) (ms : List MsgE) :
    ((lossFold r ms).message.getD []) = (r.message.getD []) ++ ms := by
  induction ms generalizing r with
  | nil => simp [lossFold]
  | cons m ms ih =>
    have step : lossFold r (m :: ms) = lossFold (r.update (-1) (.one m)) ms := rfl
    rw [step, ih, RStat.update_message]
    simp [MsgArg.toList]

theorem strStartsWith_self_append (a b : String) :
    strStartsWith (a ++ b) a = true := by
  unfold strStartsWith
  rw [String.data_append]
  induction a.data with
  | nil => simp [List.isPrefixOf]
  | cons c cs ih => simp [List.isPrefixOf, ih]

theorem toIntVerExtUrl_eq_stem (v p : String) :
    toIntVerExtUrl v p = iveUrlStem v ++ p := rfl

theorem clean_findIntVerExts_nil (l : List Extension) (b f : String)
    (h : extsClean l = true) :
    findIntVerExts l "5.0" b f = [] := by
  unfold findIntVerExts
  rw [List.filter_eq_nil]
  intro e he
  simp only [decide_eq_true_eq]
  intro hurl
  have hclean := (List.all_eq_true.mp h) e he
  rw [hurl] at hclean
  simp only [Option.getD_some] at hclean
  rw [toIntVerExtUrl_eq_stem] at hclean
  rw [strStartsWith_self_append] at hclean
  simp at hclean

theorem findIntVerExts_append (l1 l2 : List Extension) (v b f : String) :
    findIntVerExts (l1 ++ l2) v b f = findIntVerExts l1 v b f ++ findIntVerExts l2 v b f := by
  unfold findIntVerExts
  exact List.filter_append _ _

theorem extsClean_removeInterVerExts (l : List Extension) :
    extsClean (removeInterVerExts l "5.0") = true := by
  unfold extsClean removeInterVerExts
  rw [List.all_eq_true]
  intro e he
  have := List.of_mem_filter he
  simpa using this

theorem removeInterVerExts_clean_append (l1 l2 : List Extension)
    (h : extsClean l1 = true) :
    removeInterVerExts (l1 ++ l2) "5.0" = l1 ++ removeInterVerExts l2 "5.0" := by
  unfold removeInterVerExts
  rw [List.filter_append]
  congr 1
  rw [List.filter_eq_self]
  intro e he
  have hclean := (List.all_eq_true.mp h) e he
  simpa using hclean

/-- Claim C2: for every result object `ret` (numeric status), incoming status
`s` and optional message `m`, `updateRetStatus(ret, s, m)` sets `ret.status`
to `min(ret.status, s)` — making status aggregation monotonic and
order-independent across any sequence of merges — appends `m` (or all of its
elements when it is a list) to `ret.message` without removing or
deduplicating any existing message, and returns the updated `ret` (the
source mutates and returns the same object; the `data` field, when present
on `ret`, is untouched by the function). -/
theorem c2_updateRetStatus :
    ∀ (r : RStat) (s : Int) (m : MsgArg),
      (RStat.update r s m).status = min r.status s ∧
      ((RStat.update r s m).message.getD []) = (r.message.getD []) ++ m.toList ∧
      (∀ (s2 : Int) (m2 : MsgArg),
        (RStat.update (RStat.update r s m) s2 m2).status =
          (RStat.update (RStat.update r s2 m2) s m).status) := by
  intro r s m
  refine ⟨RStat.update_status r s m, RStat.update_message r s m, ?_⟩
  intro s2 m2
  rw [RStat.update_status, RStat.update_status, RStat.update_status, RStat.update_status]
  omega

/-- Claim C9: for every input whose `resourceType` is not `"Questionnaire"`,
each adjacent-version transformer (STU3→R4, R4→STU3, R4→R5, R5→R4) returns
status 0 with the input document unchanged in `data` and exactly one message
recorded; it does not abort (status −2) and, being total, does not throw. -/
theorem c9_wrong_kind :
    ∀ (qn : Questionnaire) (opts : ConvOptions),
      qn.resourceType ≠ some "Questionnaire" →
      qnR3ToR4 qn = notQnResult qn ∧
      qnR4ToR3 qn = notQnResult qn ∧
      qnR4ToR5 qn = notQnResult qn ∧
      qnR5ToR4 opts qn = notQnResult qn ∧
      notQnResult qn =
        { status := 0, data := some qn,
          message := some [.obj ⟨ctxIdOf none qn.id, 0, "Not a Questionnaire resource"⟩] } := by
  intro qn opts h
  refine ⟨?_, ?_, ?_, ?_, rfl⟩ <;>
    simp [qnR3ToR4, qnR4ToR3, qnR4ToR5, qnR5ToR4, h]

/-- Witness for C9 at a concrete non-Questionnaire resource. -/
theorem c9_wrong_kind_witness :
    qnPatientDemo.resourceType ≠ some "Questionnaire" ∧
    qnR3ToR4 qnPatientDemo = notQnResult qnPatientDemo ∧
    qnR4ToR3 qnPatientDemo = notQnResult qnPatientDemo ∧
    qnR4ToR5 qnPatientDemo = notQnResult qnPatientDemo ∧
    qnR5ToR4 {} qnPatientDemo = notQnResult qnPatientDemo := by
  have h : qnPatientDemo.resourceType ≠ some "Questionnaire" := by decide
  have := c9_wrong_kind qnPatientDemo {} h
  exact ⟨h, this.1, this.2.1, this.2.2.1, this.2.2.2.1⟩

theorem verIndex?_cases (v : String) (i : Nat) (h : verIndex? v = some i) :
    (v = "STU3" ∧ i = 0) ∨ (v = "R4" ∧ i = 1) ∨ (v = "R4B" ∧ i = 2) ∨ (v = "R5" ∧ i = 3) := by
  unfold verIndex? at h
  split_ifs at h <;> simp_all

theorem up_conv_defined (n : Nat) (h : n ≤ 2) : (entryAt n).up_conv.isSome = true := by
  interval_cases n <;> decide

theorem down_conv_defined (n : Nat) (h1 : 1 ≤ n) (h2 : n ≤ 3) :
    (entryAt n).down_conv.isSome = true := by
  interval_cases n <;> decide

/-- Claim C1: `getConverter(vFrom, vTo)` returns null exactly when
`vFrom === vTo` or either token is unregistered; otherwise the composed
converter consists of exactly `|index(vTo) − index(vFrom)|` adjacent-step
transformer references, the k-th taken from the `up_conv` column at index
`index(vFrom)+k` when ascending and from the `down_conv` column at index
`index(vFrom)−k` when descending, each of which is a defined transformer
function. -/
theorem c1_getConverter :
    ∀ (vFrom vTo : String),
      (getConverterChain vFrom vTo = none ↔
        vFrom = vTo ∨ verIndex? vFrom = none ∨ verIndex? vTo = none) ∧
      (∀ i j, verIndex? vFrom = some i → verIndex? vTo = some j → vFrom ≠ vTo →
        ∃ l, getConverterChain vFrom vTo = some l ∧
          l.length = max i j - min i j ∧
          (∀ k, ∀ hk : k < l.length,
            l.get ⟨k, hk⟩ =
              (if i < j then (entryAt (i + k)).up_conv else (entryAt (i - k)).down_conv) ∧
            (l.get ⟨k, hk⟩).isSome = true)) := by
  intro vFrom vTo
  constructor
  · constructor
    · intro h
      by_cases he : vFrom = vTo
      · exact Or.inl he
      · cases hf : verIndex? vFrom with
        | none => exact Or.inr (Or.inl rfl)
        | some i =>
          cases ht : verIndex? vTo with
          | none => exact Or.inr (Or.inr rfl)
          | some j =>
            exfalso
            unfold getConverterChain at h
            rw [if_neg he, hf, ht] at h
            simp at h
    · intro h
      rcases h with h | h | h
      · simp [getConverterChain, h]
      · by_cases he : vFrom = vTo
        · simp [getConverterChain, he]
        · unfold getConverterChain
          rw [if_neg he, h]
      · by_cases he : vFrom = vTo
        · simp [getConverterChain, he]
        · unfold getConverterChain
          rw [if_neg he, h]
          cases verIndex? vFrom <;> rfl
  · intro i j hi hj hne
    refine ⟨(pathIdx i j).map
      (fun idx => if i < j then (entryAt idx).up_conv else (entryAt idx).down_conv),
      ?_, ?_, ?_⟩
    · unfold getConverterChain
      rw [if_neg hne, hi, hj]
    · simp [pathIdx]
    · intro k hk
      have hlen : k < max i j - min i j := by
        simpa [pathIdx] using hk
      have hget : ((pathIdx i j).map
          (fun idx => if i < j then (entryAt idx).up_conv else (entryAt idx).down_conv)).get ⟨k, hk⟩ =
          (if i < j then (entryAt (i + k)).up_conv else (entryAt (i - k)).down_conv) := by
        simp only [List.get_eq_getElem, List.getElem_map, pathIdx, List.getElem_range]
        by_cases hij : i < j <;> simp [hij]
      refine ⟨hget, ?_⟩
      rw [hget]
      rcases verIndex?_cases _ _ hi with ⟨rfl, rfl⟩ | ⟨rfl, rfl⟩ | ⟨rfl, rfl⟩ | ⟨rfl, rfl⟩ <;>
        rcases verIndex?_cases _ _ hj with ⟨rfl, rfl⟩ | ⟨rfl, rfl⟩ | ⟨rfl, rfl⟩ | ⟨rfl, rfl⟩ <;>
        first
          | exact absurd rfl hne
          | (have hkb : k ≤ 2 := by omega
             interval_cases k <;> first | decide | omega)

/-- Witness for C1: STU3→R5 resolves to a chain of length 3 whose steps come
from the up-transformer column. -/
theorem c1_getConverter_witness :
    verIndex? "STU3" = some 0 ∧ verIndex? "R5" = some 3 ∧ "STU3" ≠ "R5" ∧
    (∃ l, getConverterChain "STU3" "R5" = some l ∧
      l.length = max 0 3 - min 0 3 ∧
      (∀ k, ∀ hk : k < l.length,
        l.get ⟨k, hk⟩ =
          (if 0 < 3 then (entryAt (0 + k)).up_conv else (entryAt (0 - k)).down_conv) ∧
        (l.get ⟨k, hk⟩).isSome = true)) :=
  ⟨rfl, rfl, by decide, (c1_getConverter "STU3" "R5").2 0 3 rfl rfl (by decide)⟩

/-- Claim C10: whenever `getConverter(vFrom, vTo)` would return null — i.e.
`vFrom === vTo` or either version unregistered — `convert` throws instead of
returning a result: the explicit unsupported-version `Error` when a version
is unregistered, and the null-converter invocation error (`TypeError`) when
`vFrom === vTo` with both versions registered (that case is unguarded). -/
theorem c10_convert_throws :
    ∀ (qn : Questionnaire) (opts : ConvOptions) (vFrom vTo : String),
      getConverterChain vFrom vTo = none →
      (∃ e, convert qn vFrom vTo opts = .error e) ∧
      ((verIndex? vFrom = none ∨ verIndex? vTo = none) →
        convert qn vFrom vTo opts = .error (.unsupportedVersion
          "Unsupported FHIR version. Versions currently supported are: STU3, R4, R4B, R5")) ∧
      ((verIndex? vFrom).isSome → (verIndex? vTo).isSome →
        convert qn vFrom vTo opts = .error .nullConverterInvocation ∧ vFrom = vTo) := by
  intro qn opts vFrom vTo hnull
  by_cases hb : (verIndex? vFrom).isNone ∨ (verIndex? vTo).isNone
  · have hc : convert qn vFrom vTo opts = .error (.unsupportedVersion
        "Unsupported FHIR version. Versions currently supported are: STU3, R4, R4B, R5") := by
      unfold convert
      rw [if_pos hb]
    refine ⟨⟨_, hc⟩, fun _ => hc, fun h1 h2 => ?_⟩
    exfalso
    rcases hb with hb | hb
    · rw [Option.isNone_iff_eq_none] at hb
      rw [hb] at h1
      simp at h1
    · rw [Option.isNone_iff_eq_none] at hb
      rw [hb] at h2
      simp at h2
  · have hconv : convert qn vFrom vTo opts = .error .nullConverterInvocation := by
      unfold convert
      rw [if_neg hb, hnull]
    have hvv : vFrom = vTo := by
      cases hf : verIndex? vFrom with
      | none => exact absurd (Or.inl (by rw [hf]; rfl)) hb
      | some i =>
        cases ht : verIndex? vTo with
        | none => exact absurd (Or.inr (by rw [ht]; rfl)) hb
        | some j =>
          by_contra hne
          unfold getConverterChain at hnull
          rw [if_neg hne, hf, ht] at hnull
          simp at hnull
    refine ⟨⟨_, hconv⟩, fun h => ?_, fun _ _ => ⟨hconv, hvv⟩⟩
    exfalso
    push_neg at hb
    rcases hb with ⟨hb1, hb2⟩
    rcases h with h | h
    · rw [h] at hb1; simp at hb1
    · rw [h] at hb2; simp at hb2

/-- Witness for C10: `convert` with `vFrom = vTo = "R4"` hits the
null-converter invocation, and an unregistered token hits the explicit
unsupported-version error. -/
theorem c10_convert_throws_witness :
    getConverterChain "R4" "R4" = none ∧
    convert qnR4demo "R4" "R4" {} = .error .nullConverterInvocation ∧
    getConverterChain "R6" "R4" = none ∧
    convert qnR4demo "R6" "R4" {} = .error (.unsupportedVersion
      "Unsupported FHIR version. Versions currently supported are: STU3, R4, R4B, R5") := by
  refine ⟨rfl, ?_, rfl, ?_⟩
  · exact ((c10_convert_throws qnR4demo {} "R4" "R4" rfl).2.2 (by decide) (by decide)).1
  · exact (c10_convert_throws qnR4demo {} "R6" "R4" rfl).2.1 (Or.inl rfl)

theorem filterMap_fst_map {α β γ : Type} (f : α → Option β × γ) (l : List α) :
    (l.map f).filterMap Prod.fst = l.filterMap (fun a => (f a).1) := by
  rw [List.filterMap_map]
  rfl

theorem filterMap_snd_pointwise {α β γ : Type} (f : α → Option β × Option γ)
    (g : α → γ)
    (h : ∀ a, (f a).2 = if ((f a).1).isNone = true then some (g a) else none)
    (l : List α) :
    (l.map f).filterMap Prod.snd = (l.filter (fun a => ((f a).1).isNone)).map g := by
  induction l with
  | nil => rfl
  | cons a l ih =>
    rw [List.map_cons, List.filterMap_cons, List.filter_cons, h a]
    cases hfa : ((f a).1).isNone with
    | true =>
      simp only [hfa, if_true, List.map_cons]
      rw [ih]
    | false =>
      simp only [hfa, Bool.false_eq_true, if_false]
      exact ih

theorem ewR3ToR4One_snd (ctx : String) (ew : EnableWhen) :
    (ewR3ToR4One ctx ew).2 =
      if ((ewR3ToR4One ctx ew).1).isNone = true then some (ewUpLossMsg ctx) else none := by
  unfold ewR3ToR4One ewUpLossMsg
  cases ew.hasAnswer with
  | some b => rfl
  | none =>
    cases ha : ew.answer with
    | none => rfl
    | some a =>
      dsimp only
      split <;> rfl

theorem ewR4ToR3One_snd (ctx : String) (ew : EnableWhen) :
    (ewR4ToR3One ctx ew).2 =
      if ((ewR4ToR3One ctx ew).1).isNone = true then some (ewDownLossMsg ctx ew) else none := by
  unfold ewR4ToR3One ewDownLossMsg
  split
  · rfl
  · split <;> rfl

/-- Claim C4: in the STU3→R4 enableWhen conversion, an entry carrying
`hasAnswer: b` becomes `operator: "exists"` with `answerBoolean: b` and
`hasAnswer` removed; every other entry gets `operator: "="`; an entry whose
comparison value is of kind URI or attachment is removed from the list (the
field itself is deleted when the list empties) and one loss (status −1)
message is recorded per removed entry, making the result status −1. -/
theorem c4_enableWhen_stu3_to_r4 :
    ∀ (d : ItemData) (ews : List EnableWhen),
      d.enableWhen = some ews → ews ≠ [] →
      (∀ ew b, ew.hasAnswer = some b →
        ewR3ToR4One (ctxIdOf d.linkId d.id) ew =
          (some { ew with hasAnswer := none, operator := some "exists",
                          answer := some (.vBoolean b) }, none)) ∧
      (∀ ew, ew.hasAnswer = none → ewAnswerUriOrAtt ew = false →
        ewR3ToR4One (ctxIdOf d.linkId d.id) ew =
          (some { ew with operator := some "=" }, none)) ∧
      (∀ ew, ew.hasAnswer = none → ewAnswerUriOrAtt ew = true →
        ewR3ToR4One (ctxIdOf d.linkId d.id) ew =
          (none, some (ewUpLossMsg (ctxIdOf d.linkId d.id)))) ∧
      ((enableWhenR3ToR4 d).1 =
        { d with enableWhen :=
            (if (ews.filterMap (fun ew => (ewR3ToR4One (ctxIdOf d.linkId d.id) ew).1)).isEmpty
             then none
             else some (ews.filterMap (fun ew => (ewR3ToR4One (ctxIdOf d.linkId d.id) ew).1))) }) ∧
      ((enableWhenR3ToR4 d).2.status =
        (if (ews.filter (fun ew => ((ewR3ToR4One (ctxIdOf d.linkId d.id) ew).1).isNone)).isEmpty
         then 1 else -1)) ∧
      ((enableWhenR3ToR4 d).2.message.getD [] =
        (ews.filter (fun ew => ((ewR3ToR4One (ctxIdOf d.linkId d.id) ew).1).isNone)).map
          (fun _ => ewUpLossMsg (ctxIdOf d.linkId d.id))) := by
  intro d ews hew hne
  set ctx := ctxIdOf d.linkId d.id with hctx
  have hbody : enableWhenR3ToR4 d =
      ({ d with enableWhen :=
          (if ((ews.map (ewR3ToR4One ctx)).filterMap Prod.fst).isEmpty then none
           else some ((ews.map (ewR3ToR4One ctx)).filterMap Prod.fst)) },
       lossFold {} ((ews.map (ewR3ToR4One ctx)).filterMap Prod.snd)) := by
    cases ews with
    | nil => exact absurd rfl hne
    | cons e es =>
      unfold enableWhenR3ToR4
      rw [hew]
  have hkept : (ews.map (ewR3ToR4One ctx)).filterMap Prod.fst =
      ews.filterMap (fun ew => (ewR3ToR4One ctx ew).1) :=
    filterMap_fst_map _ _
  have hmsgs : (ews.map (ewR3ToR4One ctx)).filterMap Prod.snd =
      (ews.filter (fun ew => ((ewR3ToR4One ctx ew).1).isNone)).map
        (fun _ => ewUpLossMsg ctx) :=
    filterMap_snd_pointwise _ _ (fun a => ewR3ToR4One_snd ctx a) ews
  refine ⟨?_, ?_, ?_, ?_, ?_, ?_⟩
  · intro ew b hb
    unfold ewR3ToR4One
    rw [hb]
  · intro ew hb hu
    unfold ewR3ToR4One
    rw [hb]
    cases ha : ew.answer with
    | none => rfl
    | some a =>
      dsimp only
      rw [if_neg]
      intro hcon
      rw [ewAnswerUriOrAtt, ha] at hu
      rcases hcon with hcon | hcon <;> simp [hcon] at hu
  · intro ew hb hu
    unfold ewR3ToR4One
    rw [hb]
    cases ha : ew.answer with
    | none => rw [ewAnswerUriOrAtt, ha] at hu; simp at hu
    | some a =>
      dsimp only
      rw [ewAnswerUriOrAtt, ha] at hu
      rw [if_pos (by simpa using hu)]
      rfl
  · rw [hbody]
    dsimp only
    rw [hkept]
  · rw [hbody]
    dsimp only
    rw [lossFold_status, hmsgs]
    cases hd : (ews.filter (fun ew => ((ewR3ToR4One ctx ew).1).isNone)) <;> simp
  · rw [hbody]
    dsimp only
    rw [lossFold_message, hmsgs]
    rfl

/-- Witness for C4: an item with a `hasAnswer: true` enableWhen condition,
converted STU3→R4, yields `operator: "exists"` with `answerBoolean: true`. -/
theorem c4_enableWhen_stu3_to_r4_witness :
    (enableWhenR3ToR4 itemC4demo).1.enableWhen =
      some [{ question := some "/X-010", hasAnswer := none, operator := some "exists",
              answer := some (.vBoolean true) }] ∧
    (enableWhenR3ToR4 itemC4demo).2.status = 1 := by
  have h := c4_enableWhen_stu3_to_r4 itemC4demo
    [{ question := some "/X-010", hasAnswer := some true }] rfl (by simp)
  refine ⟨?_, ?_⟩
  · rw [h.2.2.2.1]
    rfl
  · rw [h.2.2.2.2.1]
    rfl

/-- Claim C5: in the R4→STU3 enableWhen conversion, `operator: "exists"`
becomes a `hasAnswer` boolean field with `answerBoolean` and `operator`
removed; `operator: "="` keeps its comparison value with the operator field
removed; any other operator drops the entry entirely with exactly one loss
message whose context id is the item's linkId; and when the list empties the
`enableWhen` field itself is removed. -/
theorem c5_enableWhen_r4_to_stu3 :
    ∀ (d : ItemData) (ews : List EnableWhen) (lk : String),
      d.linkId = some lk → lk ≠ "" →
      d.enableWhen = some ews → ews ≠ [] →
      (∀ ew b, ew.operator = some "exists" → ew.answer = some (.vBoolean b) →
        ewR4ToR3One lk ew =
          (some { ew with hasAnswer := some b, answer := none, operator := none }, none)) ∧
      (∀ ew, ew.operator = some "=" →
        ewR4ToR3One lk ew = (some { ew with operator := none }, none)) ∧
      (∀ ew, ew.operator ≠ some "exists" → ew.operator ≠ some "=" →
        ewR4ToR3One lk ew = (none, some (ewDownLossMsg lk ew))) ∧
      ((enableWhenR4ToR3 d).1 =
        { d with enableWhen :=
            (if (ews.filterMap (fun ew => (ewR4ToR3One lk ew).1)).isEmpty then none
             else some (ews.filterMap (fun ew => (ewR4ToR3One lk ew).1))) }) ∧
      ((enableWhenR4ToR3 d).2.status =
        (if (ews.filter (fun ew => ((ewR4ToR3One lk ew).1).isNone)).isEmpty then 1 else -1)) ∧
      ((enableWhenR4ToR3 d).2.message.getD [] =
        (ews.filter (fun ew => ((ewR4ToR3One lk ew).1).isNone)).map (ewDownLossMsg lk)) := by
  intro d ews lk hlink hlk hew hne
  have hctx : ctxIdOf d.linkId d.id = lk := by
    rw [hlink]
    unfold ctxIdOf strOr
    simp [hlk]
  have hbody : enableWhenR4ToR3 d =
      ({ d with enableWhen :=
          (if ((ews.map (ewR4ToR3One lk)).filterMap Prod.fst).isEmpty then none
           else some ((ews.map (ewR4ToR3One lk)).filterMap Prod.fst)) },
       lossFold {} ((ews.map (ewR4ToR3One lk)).filterMap Prod.snd)) := by
    cases ews with
    | nil => exact absurd rfl hne
    | cons e es =>
      unfold enableWhenR4ToR3
      rw [hew, hctx]
  have hkept : (ews.map (ewR4ToR3One lk)).filterMap Prod.fst =
      ews.filterMap (fun ew => (ewR4ToR3One lk ew).1) :=
    filterMap_fst_map _ _
  have hmsgs : (ews.map (ewR4ToR3One lk)).filterMap Prod.snd =
      (ews.filter (fun ew => ((ewR4ToR3One lk ew).1).isNone)).map (ewDownLossMsg lk) :=
    filterMap_snd_pointwise _ _ (fun a => ewR4ToR3One_snd lk a) ews
  refine ⟨?_, ?_, ?_, ?_, ?_, ?_⟩
  · intro ew b hop hans
    unfold ewR4ToR3One
    rw [if_pos hop, hans]
  · intro ew hop
    unfold ewR4ToR3One
    rw [if_neg (by rw [hop]; intro hcon; simp at hcon), if_neg (by rw [hop]; simp)]
  · intro ew hop1 hop2
    unfold ewR4ToR3One
    rw [if_neg hop1, if_pos hop2]
    rfl
  · rw [hbody]
    dsimp only
    rw [hkept]
  · rw [hbody]
    dsimp only
    rw [lossFold_status, hmsgs]
    cases hd : (ews.filter (fun ew => ((ewR4ToR3One lk ew).1).isNone)) <;> simp
  · rw [hbody]
    dsimp only
    rw [lossFold_message, hmsgs]
    rfl

/-- Witness for C5: an item with enableWhen operator `">"`, converted
R4→STU3, drops the condition (the `enableWhen` field is removed entirely)
and records exactly one loss message with the item's linkId as context. -/
theorem c5_enableWhen_r4_to_stu3_witness :
    (enableWhenR4ToR3 itemC5demo).1.enableWhen = none ∧
    (enableWhenR4ToR3 itemC5demo).2.status = -1 ∧
    (enableWhenR4ToR3 itemC5demo).2.message.getD [] =
      [.obj ⟨"/X-006", -1, "Unable to convert enableWhen with operator >"⟩] := by
  have h := c5_enableWhen_r4_to_stu3 itemC5demo
    [{ question := some "/X-005", operator := some ">", answer := some (.vInteger 5) }]
    "/X-006" rfl (by simp) rfl (by simp)
  refine ⟨?_, ?_, ?_⟩
  · rw [h.2.2.2.1]
    rfl
  · rw [h.2.2.2.2.1]
    rfl
  · rw [h.2.2.2.2.2]
    rfl

theorem dropAC_fields (opts : ConvOptions) (d : ItemData) (r : RStat) :
    (dropACWithIve opts (d, r)).1.type = d.type ∧
    (dropACWithIve opts (d, r)).1.answerConstraint =
      (if strTruthy d.answerConstraint then none else d.answerConstraint) ∧
    (∀ m, m ∈ r.message.getD [] → m ∈ (dropACWithIve opts (d, r)).2.message.getD []) := by
  unfold dropACWithIve
  dsimp only
  split
  · rename_i ht
    refine ⟨by split <;> rfl, ?_, ?_⟩
    · simp only [ht, if_true]
    · intro m hm
      rw [RStat.update_message]
      exact List.mem_append_left _ hm
  · rename_i ht
    refine ⟨rfl, ?_, fun m hm => hm⟩
    simp [ht]

theorem dropDD_fields (opts : ConvOptions) (p : ItemData × RStat) :
    (dropDDWithIve opts p).1.type = p.1.type ∧
    (dropDDWithIve opts p).1.answerConstraint = p.1.answerConstraint ∧
    (∀ m, m ∈ p.2.message.getD [] → m ∈ (dropDDWithIve opts p).2.message.getD []) := by
  unfold dropDDWithIve
  dsimp only
  split
  · refine ⟨by split <;> rfl, by split <;> rfl, ?_⟩
    intro m hm
    rw [RStat.update_message]
    exact List.mem_append_left _ hm
  · exact ⟨rfl, rfl, fun m hm => hm⟩

/-- Claim C6: an item with type `"coding"`, answerConstraint
`"optionsOrType"` and a non-empty answerOption list, converted R5→R4,
becomes type `"open-choice"`, a warning (status 0) message is recorded for
that item, and the `answerConstraint` field is absent from the output
item. -/
theorem c6_optionsOrType_open_choice :
    ∀ (opts : ConvOptions) (d : ItemData) (l : List AnswerOpt),
      d.type = some "coding" → d.answerConstraint = some "optionsOrType" →
      d.answerOption = some l → l ≠ [] →
      (itemDataR5ToR4 opts d).1.type = some "open-choice" ∧
      (itemDataR5ToR4 opts d).1.answerConstraint = none ∧
      (MsgE.obj ⟨ctxIdOf d.linkId d.id, 0,
        "optionsOrType with type coding is converted as open-choice"⟩) ∈
        ((itemDataR5ToR4 opts d).2.message.getD []) := by
  intro opts d l htype hac hao hne
  have hal : hasAnswerList d = true := by
    unfold hasAnswerList
    rw [hao]
    cases l with
    | nil => exact absurd rfl hne
    | cons o os => simp
  have hstep : itemDataR5ToR4 opts d =
      dropDDWithIve opts (dropACWithIve opts
        ({ d with type := some "open-choice" },
         RStat.update {} 0 (.one (.obj ⟨ctxIdOf d.linkId d.id, 0,
           "optionsOrType with type coding is converted as open-choice"⟩)))) := by
    unfold itemDataR5ToR4 acTypeRewriteR5ToR4
    dsimp only
    rw [if_pos hal, if_pos htype, if_pos hac]
  rw [hstep]
  obtain ⟨hddt, hdda, hddm⟩ := dropDD_fields opts (dropACWithIve opts _)
  obtain ⟨hact, haca, hacm⟩ := dropAC_fields opts
    { d with type := some "open-choice" }
    (RStat.update {} 0 (.one (.obj ⟨ctxIdOf d.linkId d.id, 0,
      "optionsOrType with type coding is converted as open-choice"⟩)))
  refine ⟨?_, ?_, ?_⟩
  · rw [hddt, hact]
  · rw [hdda, haca]
    have : strTruthy ({ d with type := some "open-choice" } : ItemData).answerConstraint = true := by
      show strTruthy d.answerConstraint = true
      rw [strTruthy, hac]
      simp
    rw [if_pos this]
  · apply hddm
    apply hacm
    rw [RStat.update_message]
    simp [MsgArg.toList]

/-- Witness for C6 at a concrete coding item with `optionsOrType` and one
answer option. -/
theorem c6_optionsOrType_open_choice_witness :
    (itemDataR5ToR4 {} itemC6demo).1.type = some "open-choice" ∧
    (itemDataR5ToR4 {} itemC6demo).1.answerConstraint = none ∧
    (MsgE.obj ⟨"/X-010", 0, "optionsOrType with type coding is converted as open-choice"⟩) ∈
      ((itemDataR5ToR4 {} itemC6demo).2.message.getD []) :=
  c6_optionsOrType_open_choice {} itemC6demo
    [{ value := some (.vCoding { code := some "mex" }) }] rfl rfl rfl (by simp)

/-- Claim C7 (code bug evidence): converting a minimal STU3 Questionnaire to
R4 yields a document carrying TWO conversion tags — the
`lhc-qn-converter-STU3toR4` tag written by the `qnR3ToR4` transformer step
itself (qnvconv_stu3_r4.js lines 24-26) and the `lhc-qnvconv-STU3-to-R4` tag
written by the single post-chain `updateMeta` stamp.  The claim (and the
comment in qnvconv.js: "the tag and profile for the resulting questionnaire
are set outside the converters") says intermediate transformer steps never
write a profile or append a conversion tag; the STU3↔R4 transformer code
contradicts that. -/
theorem c7_step_stamp_eval :
    resultTagCodes (runConversion "STU3" "R4" qnSTU3demo {}) =
      [some "lhc-qn-converter-STU3toR4", some "lhc-qnvconv-STU3-to-R4"] ∧
    resultTagCodes (runConversion "STU3" "R5" qnSTU3demo {}) =
      [some "lhc-qn-converter-STU3toR4", some "lhc-qnvconv-STU3-to-R5"] := by
  constructor <;> rfl

/-- Counterexample for C8: for the R4→R4B conversion the returned `data` is
the very object the caller passed in (`qnNoOpConv` returns its argument, and
no step deep-copies), and the post-chain `updateMeta` therefore mutates the
caller's input — its `meta` differs after the call. -/
theorem c8_counterexample :
    (runConversion "R4" "R4B" qnR4demo {}).resultAliasesInput = true ∧
    (runConversion "R4" "R4B" qnR4demo {}).inputAfter.meta ≠ qnR4demo.meta := by
  constructor
  · rfl
  · decide

theorem aliased_false_foldl (opts : ConvOptions) :
    ∀ (steps : List Conv) (st : ChainState), st.aliased = false →
      (steps.foldl (runStep opts) st).aliased = false := by
  intro steps
  induction steps with
  | nil => intro st h; exact h
  | cons c cs ih =>
    intro st h
    rw [List.foldl_cons]
    apply ih
    rw [runStep]
    dsimp only
    rw [h]
    rfl

theorem chain_alias_core (opts : ConvOptions) (qn : Questionnaire)
    (hq : qn.resourceType = some "Questionnaire") (c : Conv) (hc : c ≠ Conv.noop) :
    ∀ (pre : List Conv), (∀ x ∈ pre, x = Conv.noop) →
    ∀ (post : List Conv) (st : ChainState), st.data = qn → st.aliased = true →
    ((pre ++ c :: post).foldl (runStep opts) st).aliased = false := by
  intro pre
  induction pre with
  | nil =>
    intro _ post st hd ha
    rw [List.nil_append, List.foldl_cons]
    apply aliased_false_foldl
    rw [runStep]
    dsimp only
    rw [ha, hd]
    cases c with
    | noop => exact absurd rfl hc
    | r3to4 => simp [Conv.aliases, hq]
    | r4to3 => simp [Conv.aliases, hq]
    | r4to5 => simp [Conv.aliases, hq]
    | r5to4 => simp [Conv.aliases, hq]
  | cons p ps ih =>
    intro hpre post st hd ha
    rw [List.cons_append, List.foldl_cons]
    have hp : p = Conv.noop := hpre p (List.mem_cons_self p ps)
    subst hp
    apply ih (fun x hx => hpre x (List.mem_cons_of_mem _ hx)) post
    · rw [runStep]
      dsimp only
      rw [hd]
      rfl
    · rw [runStep]
      dsimp only
      rw [ha]
      rfl

theorem chainedConverter_not_aliased (steps : List Conv) (vF vT : String)
    (qn : Questionnaire) (opts : ConvOptions)
    (h : ((steps.foldl (runStep opts) { data := qn, stat := {}, aliased := true })).aliased = false) :
    (chainedConverter steps vF vT qn opts).inputAfter = qn ∧
    (chainedConverter steps vF vT qn opts).resultAliasesInput = false := by
  unfold chainedConverter
  dsimp only
  rw [h]
  exact ⟨by simp, rfl⟩

/-- Claim C8 (amended): the converter returned by `getConverter` neither
aliases nor mutates the caller's input when the input is a Questionnaire and
the chain contains at least one real (deep-copying) transformer step — i.e.
for every resolvable pair except the R4→R4B and R4B→R4 identity
conversions.  (In those two cases, and for wrong-kind inputs, the returned
data is the caller's own object, which the metadata stamp then mutates; see
the counterexample.) -/
theorem c8_no_mutation_amended :
    ∀ (vFrom vTo : String) (qn : Questionnaire) (opts : ConvOptions) (l : List (Option Conv)),
      getConverterChain vFrom vTo = some l →
      qn.resourceType = some "Questionnaire" →
      ¬(vFrom = "R4" ∧ vTo = "R4B") →
      ¬(vFrom = "R4B" ∧ vTo = "R4") →
      (runConversion vFrom vTo qn opts).inputAfter = qn ∧
      (runConversion vFrom vTo qn opts).resultAliasesInput = false := by
  intro vFrom vTo qn opts l hchain hq hx1 hx2
  have hne : vFrom ≠ vTo := by
    intro h
    unfold getConverterChain at hchain
    rw [if_pos h] at hchain
    simp at hchain
  have hi2 : ∃ i, verIndex? vFrom = some i := by
    unfold getConverterChain at hchain
    rw [if_neg hne] at hchain
    cases hfv : verIndex? vFrom with
    | some i => exact ⟨i, rfl⟩
    | none =>
      rw [hfv] at hchain
      cases htv : verIndex? vTo with
      | some j => rw [htv] at hchain; simp at hchain
      | none => rw [htv] at hchain; simp at hchain
  have hj2 : ∃ j, verIndex? vTo = some j := by
    unfold getConverterChain at hchain
    rw [if_neg hne] at hchain
    cases htv : verIndex? vTo with
    | some j => exact ⟨j, rfl⟩
    | none =>
      cases hfv : verIndex? vFrom with
      | some i => rw [hfv, htv] at hchain; simp at hchain
      | none => rw [hfv, htv] at hchain; simp at hchain
  obtain ⟨i, hi⟩ := hi2
  obtain ⟨j, hj⟩ := hj2
  rcases verIndex?_cases vFrom i hi with ⟨rfl, rfl⟩ | ⟨rfl, rfl⟩ | ⟨rfl, rfl⟩ | ⟨rfl, rfl⟩ <;>
    rcases verIndex?_cases vTo j hj with ⟨rfl, rfl⟩ | ⟨rfl, rfl⟩ | ⟨rfl, rfl⟩ | ⟨rfl, rfl⟩
  · exact absurd rfl hne
  · exact chainedConverter_not_aliased _ _ _ _ _
      (chain_alias_core opts qn hq Conv.r3to4 (by simp) [] (by simp) [] _ rfl rfl)
  · exact chainedConverter_not_aliased _ _ _ _ _
      (chain_alias_core opts qn hq Conv.r3to4 (by simp) [] (by simp) [Conv.noop] _ rfl rfl)
  · exact chainedConverter_not_aliased _ _ _ _ _
      (chain_alias_core opts qn hq Conv.r3to4 (by simp) [] (by simp) [Conv.noop, Conv.r4to5] _ rfl rfl)
  · exact chainedConverter_not_aliased _ _ _ _ _
      (chain_alias_core opts qn hq Conv.r4to3 (by simp) [] (by simp) [] _ rfl rfl)
  · exact absurd rfl hne
  · exact absurd ⟨rfl, rfl⟩ hx1
  · exact chainedConverter_not_aliased _ _ _ _ _
      (chain_alias_core opts qn hq Conv.r4to5 (by simp) [Conv.noop] (by simp) [] _ rfl rfl)
  · exact chainedConverter_not_aliased _ _ _ _ _
      (chain_alias_core opts qn hq Conv.r4to3 (by simp) [Conv.noop] (by simp) [] _ rfl rfl)
  · exact absurd ⟨rfl, rfl⟩ hx2
  · exact absurd rfl hne
  · exact chainedConverter_not_aliased _ _ _ _ _
      (chain_alias_core opts qn hq Conv.r4to5 (by simp) [] (by simp) [] _ rfl rfl)
  · exact chainedConverter_not_aliased _ _ _ _ _
      (chain_alias_core opts qn hq Conv.r5to4 (by simp) [] (by simp) [Conv.noop, Conv.r4to3] _ rfl rfl)
  · exact chainedConverter_not_aliased _ _ _ _ _
      (chain_alias_core opts qn hq Conv.r5to4 (by simp) [] (by simp) [Conv.noop] _ rfl rfl)
  · exact chainedConverter_not_aliased _ _ _ _ _
      (chain_alias_core opts qn hq Conv.r5to4 (by simp) [] (by simp) [] _ rfl rfl)
  · exact absurd rfl hne

/-- Witness for the amended C8 at a concrete STU3→R4 conversion. -/
theorem c8_no_mutation_amended_witness :
    getConverterChain "STU3" "R4" = some [some Conv.r3to4] ∧
    qnSTU3demo.resourceType = some "Questionnaire" ∧
    (runConversion "STU3" "R4" qnSTU3demo {}).inputAfter = qnSTU3demo ∧
    (runConversion "STU3" "R4" qnSTU3demo {}).resultAliasesInput = false := by
  have h := c8_no_mutation_amended "STU3" "R4" qnSTU3demo {} [some Conv.r3to4]
    rfl rfl (by simp) (by simp)
  exact ⟨rfl, rfl, h.1, h.2⟩

theorem acTypeRewrite_ext (d : ItemData) :
    (acTypeRewriteR5ToR4 d).1.extension = d.extension := by
  unfold acTypeRewriteR5ToR4
  dsimp only
  split_ifs <;> rfl

theorem acTypeRewrite_dd (d : ItemData) :
    (acTypeRewriteR5ToR4 d).1.disabledDisplay = d.disabledDisplay := by
  unfold acTypeRewriteR5ToR4
  dsimp only
  split_ifs <;> rfl

theorem dropAC_ext_ive (d : ItemData) (r : RStat) :
    (dropACWithIve iveOn (d, r)).1.extension =
      (if strTruthy d.answerConstraint then
        d.extension ++
          [{ url := some (toIntVerExtUrl "5.0" "Questionnaire.item.answerConstraint"),
             valueCode := d.answerConstraint }]
       else d.extension) := by
  unfold dropACWithIve iveOn addExtension
  dsimp only
  split
  · rename_i ht
    simp only [ht, if_true]
  · rename_i ht
    simp only [ht, if_false]

theorem findAC_dropDD (opts : ConvOptions) (p : ItemData × RStat) :
    findIntVerExts (dropDDWithIve opts p).1.extension
        "5.0" "Questionnaire.item" "answerConstraint" =
      findIntVerExts p.1.extension "5.0" "Questionnaire.item" "answerConstraint" := by
  unfold dropDDWithIve
  dsimp only
  split
  · split
    · rw [addExtension, findIntVerExts_append]
      have : findIntVerExts
          [{ url := some (toIntVerExtUrl "5.0" "Questionnaire.item.disabledDisplay"),
             valueCode := p.1.disabledDisplay }] "5.0" "Questionnaire.item" "answerConstraint" = [] := by
        simp +decide [findIntVerExts, List.filter]
      rw [this, List.append_nil]
    · rfl
  · rfl

theorem itemDataR4ToR5_ac (d : ItemData) :
    (itemDataR4ToR5 d).answerConstraint =
      (match (findIntVerExts d.extension "5.0" "Questionnaire.item" "answerConstraint").head? with
       | some ive => ive.valueCode
       | none =>
         if d.type = some "open-choice" then some "optionsOrString"
         else d.answerConstraint) := by
  unfold itemDataR4ToR5
  dsimp only
  by_cases h1 : d.type = some "choice" <;>
    by_cases h2 : d.type = some "open-choice" <;>
    cases hf1 : (findIntVerExts d.extension "5.0" "Questionnaire.item" "answerConstraint").head? <;>
    cases hf2 : (findIntVerExts d.extension "5.0" "Questionnaire.item" "disabledDisplay").head? <;>
    simp_all

theorem itemDataR4ToR5_ext (d : ItemData) :
    (itemDataR4ToR5 d).extension = removeInterVerExts d.extension "5.0" := by
  unfold itemDataR4ToR5
  dsimp only
  by_cases h1 : d.type = some "choice" <;>
    by_cases h2 : d.type = some "open-choice" <;>
    cases hf1 : (findIntVerExts d.extension "5.0" "Questionnaire.item" "answerConstraint").head? <;>
    cases hf2 : (findIntVerExts d.extension "5.0" "Questionnaire.item" "disabledDisplay").head? <;>
    simp_all

theorem acTypeRewrite_out (d : ItemData)
    (ht1 : d.type ≠ some "choice") (ht2 : d.type ≠ some "open-choice")
    (hace : acEnumOk d.answerConstraint = true) :
    (if strTruthy (acTypeRewriteR5ToR4 d).1.answerConstraint = true then
       (acTypeRewriteR5ToR4 d).1.answerConstraint
     else if (acTypeRewriteR5ToR4 d).1.type = some "open-choice" then some "optionsOrString"
     else (acTypeRewriteR5ToR4 d).1.answerConstraint) = expectedAC d := by
  have hcases : d.answerConstraint = none ∨ d.answerConstraint = some "optionsOnly" ∨
      d.answerConstraint = some "optionsOrType" ∨ d.answerConstraint = some "optionsOrString" := by
    have h2 := hace
    simp only [acEnumOk, Bool.or_eq_true, decide_eq_true_eq] at h2
    tauto
  unfold acTypeRewriteR5ToR4 expectedAC
  dsimp only
  rcases hcases with hac | hac | hac | hac <;>
    by_cases hal : hasAnswerList d = true <;>
    by_cases hty : d.type = some "coding" <;>
    simp_all +decide [strTruthy]

theorem item_ac_roundtrip (d : ItemData) (h : itemDataR5Ok d = true) :
    (itemDataR4ToR5 (itemDataR5ToR4 iveOn d).1).answerConstraint = expectedAC d := by
  have hh := h
  simp only [itemDataR5Ok, Bool.and_eq_true, decide_eq_true_eq] at hh
  obtain ⟨⟨⟨ht1, ht2⟩, hace⟩, hext0⟩ := hh
  have hout := acTypeRewrite_out d ht1 ht2 hace
  rw [itemDataR4ToR5_ac]
  cases hq : acTypeRewriteR5ToR4 d with
  | mk d1 r1 =>
    have hd1ext : d1.extension = d.extension := by
      have hx := acTypeRewrite_ext d
      rw [hq] at hx
      exact hx
    have e0 : (itemDataR5ToR4 iveOn d).1 =
        (dropDDWithIve iveOn (dropACWithIve iveOn (d1, r1))).1 := by
      unfold itemDataR5ToR4
      rw [hq]
    have f2 : (dropDDWithIve iveOn (dropACWithIve iveOn (d1, r1))).1.answerConstraint =
        (if strTruthy d1.answerConstraint = true then none else d1.answerConstraint) := by
      rw [(dropDD_fields iveOn _).2.1, (dropAC_fields iveOn d1 r1).2.1]
    have f1 : (dropDDWithIve iveOn (dropACWithIve iveOn (d1, r1))).1.type = d1.type := by
      rw [(dropDD_fields iveOn _).1, (dropAC_fields iveOn d1 r1).1]
    have f3 : findIntVerExts (dropDDWithIve iveOn (dropACWithIve iveOn (d1, r1))).1.extension
        "5.0" "Questionnaire.item" "answerConstraint" =
        (if strTruthy d1.answerConstraint = true then
          [{ url := some (toIntVerExtUrl "5.0" "Questionnaire.item.answerConstraint"),
             valueCode := d1.answerConstraint }] else []) := by
      rw [findAC_dropDD, dropAC_ext_ive d1 r1]
      cases hcond : strTruthy d1.answerConstraint with
      | false =>
        simp only [hcond, Bool.false_eq_true, if_false]
        rw [hd1ext]
        exact clean_findIntVerExts_nil _ _ _ hext0
      | true =>
        simp only [hcond, if_true]
        rw [findIntVerExts_append, hd1ext, clean_findIntVerExts_nil _ _ _ hext0,
          List.nil_append]
        simp +decide [findIntVerExts, List.filter]
    have hout2 : (if strTruthy d1.answerConstraint = true then d1.answerConstraint
        else if d1.type = some "open-choice" then some "optionsOrString"
        else d1.answerConstraint) = expectedAC d := by
      rw [hq] at hout
      exact hout
    rw [e0, f3, f1, f2, ← hout2]
    cases hcond : strTruthy d1.answerConstraint <;> simp [hcond]

theorem itemACs_roundtrip :
    ∀ it, itemR5Ok it = true →
      itemACs (qnItemR4ToR5 (qnItemR5ToR4 iveOn it).1) = itemExpACs it := by
  refine Item.inductionOn ?_
  intro d cs ih h
  rw [itemR5Ok_mk, Bool.and_eq_true, List.all_eq_true] at h
  have e1 : (qnItemR5ToR4 iveOn (.mk d cs)).1 =
      .mk (itemDataR5ToR4 iveOn d).1 (cs.map (fun c => (qnItemR5ToR4 iveOn c).1)) := by
    rw [qnItemR5ToR4_mk]
  rw [e1, qnItemR4ToR5_mk, itemACs_mk, itemExpACs_mk]
  congr 1
  · exact item_ac_roundtrip d h.1
  · rw [List.map_map, List.map_map]
    congr 1
    apply List.map_congr_left
    intro c hc
    simp only [Function.comp_apply]
    exact ih c hc (h.2 c hc)

theorem itemClean5_after_up :
    ∀ it, itemClean5 (qnItemR4ToR5 it) = true := by
  refine Item.inductionOn ?_
  intro d cs ih
  rw [qnItemR4ToR5_mk, itemClean5_mk, Bool.and_eq_true]
  constructor
  · rw [itemDataR4ToR5_ext]
    exact extsClean_removeInterVerExts _
  · rw [List.all_eq_true]
    intro y hy
    obtain ⟨c, hc, rfl⟩ := List.mem_map.mp hy
    exact ih c hc

theorem convItemList_items (f : Item → Item × RStat) (items : List Item) :
    (convItemList f items).1 = items.map (fun it => (f it).1) := by
  have hstep : ∀ (acc : List Item × RStat) (it : Item),
      (let (it2, s) := f it
       (acc.1 ++ [it2], acc.2.mergeSub s)) = (acc.1 ++ [(f it).1], acc.2.mergeSub (f it).2) := by
    intro acc it
    cases hf : f it
    rfl
  have aux : ∀ (l : List Item) (acc : List Item × RStat),
      (l.foldl (fun acc it =>
        let (it2, s) := f it
        (acc.1 ++ [it2], acc.2.mergeSub s)) acc).1 = acc.1 ++ l.map (fun it => (f it).1) := by
    intro l
    induction l with
    | nil => intro acc; simp
    | cons it rest ih =>
      intro acc
      rw [List.foldl_cons, hstep acc it, ih]
      simp
  unfold convItemList
  rw [aux]
  rfl

theorem dropVAC_spec (p : Questionnaire × RStat) :
    (dropVACodingIve iveOn p).1.resourceType = p.1.resourceType ∧
    (dropVACodingIve iveOn p).1.item = p.1.item ∧
    (dropVACodingIve iveOn p).1.versionAlgorithmCoding = none ∧
    (dropVACodingIve iveOn p).1.versionAlgorithmString = p.1.versionAlgorithmString ∧
    (dropVACodingIve iveOn p).1.copyrightLabel = p.1.copyrightLabel ∧
    (dropVACodingIve iveOn p).1.extension = p.1.extension ++
      (if p.1.versionAlgorithmCoding.isSome then
        [{ url := some (toIntVerExtUrl "5.0" "Questionnaire.versionAlgorithm"),
           valueCoding := p.1.versionAlgorithmCoding }] else []) := by
  unfold dropVACodingIve iveOn addExtension
  dsimp only
  split
  · rename_i hs
    simp only [hs, if_true]
    refine ⟨?_, ?_, ?_, ?_, ?_, ?_⟩ <;> trivial
  · rename_i hs
    rw [Option.not_isSome_iff_eq_none] at hs
    simp only [hs, Option.isSome_none, Bool.false_eq_true, if_false, List.append_nil]
    refine ⟨?_, ?_, ?_, ?_, ?_, ?_⟩ <;> trivial

theorem dropVAS_spec (p : Questionnaire × RStat) :
    (dropVAStringIve iveOn p).1.resourceType = p.1.resourceType ∧
    (dropVAStringIve iveOn p).1.item = p.1.item ∧
    (dropVAStringIve iveOn p).1.versionAlgorithmCoding = p.1.versionAlgorithmCoding ∧
    (dropVAStringIve iveOn p).1.versionAlgorithmString = none ∧
    (dropVAStringIve iveOn p).1.copyrightLabel = p.1.copyrightLabel ∧
    (dropVAStringIve iveOn p).1.extension = p.1.extension ++
      (if p.1.versionAlgorithmString.isSome then
        [{ url := some (toIntVerExtUrl "5.0" "Questionnaire.versionAlgorithm"),
           valueString := p.1.versionAlgorithmString }] else []) := by
  unfold dropVAStringIve iveOn addExtension
  dsimp only
  split
  · rename_i hs
    simp only [hs, if_true]
    refine ⟨?_, ?_, ?_, ?_, ?_, ?_⟩ <;> trivial
  · rename_i hs
    rw [Option.not_isSome_iff_eq_none] at hs
    simp only [hs, Option.isSome_none, Bool.false_eq_true, if_false, List.append_nil]
    refine ⟨?_, ?_, ?_, ?_, ?_, ?_⟩ <;> trivial

theorem dropCL_spec (p : Questionnaire × RStat) :
    (dropCLIve iveOn p).1.resourceType = p.1.resourceType ∧
    (dropCLIve iveOn p).1.item = p.1.item ∧
    (dropCLIve iveOn p).1.versionAlgorithmCoding = p.1.versionAlgorithmCoding ∧
    (dropCLIve iveOn p).1.versionAlgorithmString = p.1.versionAlgorithmString ∧
    (dropCLIve iveOn p).1.copyrightLabel = none ∧
    (dropCLIve iveOn p).1.extension = p.1.extension ++
      (if p.1.copyrightLabel.isSome then
        [{ url := some (toIntVerExtUrl "5.0" "Questionnaire.copyrightLabel"),
           valueString := p.1.copyrightLabel }] else []) := by
  unfold dropCLIve iveOn addExtension
  dsimp only
  split
  · rename_i hs
    simp only [hs, if_true]
    refine ⟨?_, ?_, ?_, ?_, ?_, ?_⟩ <;> trivial
  · rename_i hs
    rw [Option.not_isSome_iff_eq_none] at hs
    simp only [hs, Option.isSome_none, Bool.false_eq_true, if_false, List.append_nil]
    refine ⟨?_, ?_, ?_, ?_, ?_, ?_⟩ <;> trivial

theorem recoverVA_preserves (qn : Questionnaire) (r : RStat) :
    (recoverVersionAlgorithm (qn, r)).1.resourceType = qn.resourceType ∧
    (recoverVersionAlgorithm (qn, r)).1.item = qn.item ∧
    (recoverVersionAlgorithm (qn, r)).1.extension = qn.extension ∧
    (recoverVersionAlgorithm (qn, r)).1.copyrightLabel = qn.copyrightLabel := by
  unfold recoverVersionAlgorithm
  dsimp only
  split
  · exact ⟨rfl, rfl, rfl, rfl⟩
  · split_ifs <;> exact ⟨rfl, rfl, rfl, rfl⟩

theorem recoverCL_preserves (qn : Questionnaire) (r : RStat) :
    (recoverCopyrightLabel (qn, r)).1.resourceType = qn.resourceType ∧
    (recoverCopyrightLabel (qn, r)).1.item = qn.item ∧
    (recoverCopyrightLabel (qn, r)).1.extension = qn.extension ∧
    (recoverCopyrightLabel (qn, r)).1.versionAlgorithmCoding = qn.versionAlgorithmCoding ∧
    (recoverCopyrightLabel (qn, r)).1.versionAlgorithmString = qn.versionAlgorithmString := by
  unfold recoverCopyrightLabel
  dsimp only
  split
  · exact ⟨rfl, rfl, rfl, rfl, rfl⟩
  · split_ifs <;> exact ⟨rfl, rfl, rfl, rfl, rfl⟩

theorem recoverVA_of_find_coding (qn : Questionnaire) (r : RStat) (c : Coding)
    (hf : (findIntVerExts qn.extension "5.0" "Questionnaire" "versionAlgorithm").head? =
      some { url := some (toIntVerExtUrl "5.0" "Questionnaire.versionAlgorithm"),
             valueCoding := some c }) :
    (recoverVersionAlgorithm (qn, r)).1.versionAlgorithmCoding = some c ∧
    (recoverVersionAlgorithm (qn, r)).1.versionAlgorithmString = qn.versionAlgorithmString := by
  unfold recoverVersionAlgorithm
  dsimp only
  rw [hf]
  exact ⟨rfl, rfl⟩

theorem recoverVA_of_find_string (qn : Questionnaire) (r : RStat) (s : String)
    (hf : (findIntVerExts qn.extension "5.0" "Questionnaire" "versionAlgorithm").head? =
      some { url := some (toIntVerExtUrl "5.0" "Questionnaire.versionAlgorithm"),
             valueString := some s }) :
    (recoverVersionAlgorithm (qn, r)).1.versionAlgorithmCoding = qn.versionAlgorithmCoding ∧
    (recoverVersionAlgorithm (qn, r)).1.versionAlgorithmString = some s := by
  unfold recoverVersionAlgorithm
  dsimp only
  rw [hf]
  exact ⟨rfl, rfl⟩

theorem recoverVA_of_find_none (qn : Questionnaire) (r : RStat)
    (hf : (findIntVerExts qn.extension "5.0" "Questionnaire" "versionAlgorithm").head? = none) :
    (recoverVersionAlgorithm (qn, r)).1.versionAlgorithmCoding = qn.versionAlgorithmCoding ∧
    (recoverVersionAlgorithm (qn, r)).1.versionAlgorithmString = qn.versionAlgorithmString := by
  unfold recoverVersionAlgorithm
  dsimp only
  rw [hf]
  exact ⟨rfl, rfl⟩

theorem recoverCL_of_find_string (qn : Questionnaire) (r : RStat) (s : String)
    (hf : (findIntVerExts qn.extension "5.0" "Questionnaire" "copyrightLabel").head? =
      some { url := some (toIntVerExtUrl "5.0" "Questionnaire.copyrightLabel"),
             valueString := some s }) :
    (recoverCopyrightLabel (qn, r)).1.copyrightLabel = some s := by
  unfold recoverCopyrightLabel
  dsimp only
  rw [hf]
  rfl

theorem recoverCL_of_find_none (qn : Questionnaire) (r : RStat)
    (hf : (findIntVerExts qn.extension "5.0" "Questionnaire" "copyrightLabel").head? = none) :
    (recoverCopyrightLabel (qn, r)).1.copyrightLabel = qn.copyrightLabel := by
  unfold recoverCopyrightLabel
  dsimp only
  rw [hf]

theorem qnR5ToR4_spec (opts : ConvOptions) (qn : Questionnaire)
    (hq : qn.resourceType = some "Questionnaire")
    (items : List Item) (r : RStat) (q4 : Questionnaire) (r4 : RStat)
    (hconv : convItemList (qnItemR5ToR4 opts) qn.item = (items, r))
    (hdrop : dropCLIve opts (dropVAStringIve opts (dropVACodingIve opts
      ({ qn with item := items }, r))) = (q4, r4)) :
    qnR5ToR4 opts qn = { status := r4.status, data := some q4, message := r4.message } := by
  unfold qnR5ToR4
  rw [if_neg (by simp [hq]), hconv]
  dsimp only
  rw [hdrop]

theorem qnR4ToR5_spec (qn : Questionnaire)
    (hq : qn.resourceType = some "Questionnaire")
    (q5 : Questionnaire) (r5 : RStat)
    (hrec : recoverCopyrightLabel (recoverVersionAlgorithm
      ({ qn with item := qn.item.map qnItemR4ToR5 }, ({} : RStat))) = (q5, r5)) :
    qnR4ToR5 qn = { status := r5.status
                    data := some ({ q5 with extension := removeInterVerExts q5.extension "5.0" })
                    message := r5.message } := by
  unfold qnR4ToR5
  rw [if_neg (by simp [hq])]
  dsimp only
  rw [hrec]

theorem chainedConverter_data (steps : List Conv) (vF vT : String)
    (qn : Questionnaire) (opts : ConvOptions) :
    (chainedConverter steps vF vT qn opts).result.data =
      some (updateMeta
        (steps.foldl (runStep opts) { data := qn, stat := {}, aliased := true }).data
        vF vT opts) := rfl

theorem fold_data_first_real (c : Conv) (qn q : Questionnaire) (opts : ConvOptions)
    (hd : (c.run qn opts).data = some q) :
    (([c, Conv.noop]).foldl (runStep opts)
      { data := qn, stat := {}, aliased := true }).data = q := by
  rw [List.foldl_cons, List.foldl_cons, List.foldl_nil]
  show ((runStep opts (runStep opts { data := qn, stat := {}, aliased := true } c) Conv.noop)).data = q
  unfold runStep
  dsimp only
  rw [hd]
  rfl

theorem fold_data_second_real (c : Conv) (qn q : Questionnaire) (opts : ConvOptions)
    (hd : (c.run qn opts).data = some q) :
    (([Conv.noop, c]).foldl (runStep opts)
      { data := qn, stat := {}, aliased := true }).data = q := by
  rw [List.foldl_cons, List.foldl_cons, List.foldl_nil]
  have h1 : runStep opts { data := qn, stat := {}, aliased := true } Conv.noop =
      { data := qn,
        stat := RStat.update {} 1 .noMsg,
        aliased := true } := rfl
  rw [h1]
  unfold runStep
  dsimp only
  rw [hd]
  rfl

theorem updateMeta_fields (qn : Questionnaire) (vF vT : String) (opts : ConvOptions) :
    (updateMeta qn vF vT opts).resourceType = qn.resourceType ∧
    (updateMeta qn vF vT opts).item = qn.item ∧
    (updateMeta qn vF vT opts).extension = qn.extension ∧
    (updateMeta qn vF vT opts).versionAlgorithmCoding = qn.versionAlgorithmCoding ∧
    (updateMeta qn vF vT opts).versionAlgorithmString = qn.versionAlgorithmString ∧
    (updateMeta qn vF vT opts).copyrightLabel = qn.copyrightLabel := by
  unfold updateMeta
  dsimp only
  exact ⟨rfl, rfl, rfl, rfl, rfl, rfl⟩

theorem findIVE_single (e : Extension) (v pb f : String) :
    findIntVerExts [e] v pb f =
      if e.url = some (toIntVerExtUrl v (pb ++ "." ++ f)) then [e] else [] := by
  unfold findIntVerExts
  simp [List.filter_cons]

theorem findIVE_if_match (b : Bool) (e : Extension) (v pb f : String)
    (hu : e.url = some (toIntVerExtUrl v (pb ++ "." ++ f))) :
    findIntVerExts (if b then [e] else []) v pb f = (if b then [e] else []) := by
  cases b
  · rfl
  · simp only [if_true]
    rw [findIVE_single, if_pos hu]

theorem findIVE_if_miss (b : Bool) (e : Extension) (v pb f : String)
    (hu : e.url ≠ some (toIntVerExtUrl v (pb ++ "." ++ f))) :
    findIntVerExts (if b then [e] else []) v pb f = [] := by
  cases b
  · rfl
  · simp only [if_true]
    rw [findIVE_single, if_neg hu]

theorem dropStack_fields (qn : Questionnaire) (items : List Item) (r : RStat) :
    (dropCLIve iveOn (dropVAStringIve iveOn (dropVACodingIve iveOn
      ({ qn with item := items }, r)))).1.resourceType = qn.resourceType ∧
    (dropCLIve iveOn (dropVAStringIve iveOn (dropVACodingIve iveOn
      ({ qn with item := items }, r)))).1.item = items ∧
    (dropCLIve iveOn (dropVAStringIve iveOn (dropVACodingIve iveOn
      ({ qn with item := items }, r)))).1.versionAlgorithmCoding = none ∧
    (dropCLIve iveOn (dropVAStringIve iveOn (dropVACodingIve iveOn
      ({ qn with item := items }, r)))).1.versionAlgorithmString = none ∧
    (dropCLIve iveOn (dropVAStringIve iveOn (dropVACodingIve iveOn
      ({ qn with item := items }, r)))).1.copyrightLabel = none ∧
    (dropCLIve iveOn (dropVAStringIve iveOn (dropVACodingIve iveOn
      ({ qn with item := items }, r)))).1.extension = qn.extension
      ++ (if qn.versionAlgorithmCoding.isSome then
            [{ url := some (toIntVerExtUrl "5.0" "Questionnaire.versionAlgorithm"),
               valueCoding := qn.versionAlgorithmCoding }] else [])
      ++ (if qn.versionAlgorithmString.isSome then
            [{ url := some (toIntVerExtUrl "5.0" "Questionnaire.versionAlgorithm"),
               valueString := qn.versionAlgorithmString }] else [])
      ++ (if qn.copyrightLabel.isSome then
            [{ url := some (toIntVerExtUrl "5.0" "Questionnaire.copyrightLabel"),
               valueString := qn.copyrightLabel }] else []) := by
  obtain ⟨a1, a2, a3, a4, a5, a6⟩ := dropVAC_spec ({ qn with item := items }, r)
  obtain ⟨b1, b2, b3, b4, b5, b6⟩ :=
    dropVAS_spec (dropVACodingIve iveOn ({ qn with item := items }, r))
  obtain ⟨c1, c2, c3, c4, c5, c6⟩ :=
    dropCL_spec (dropVAStringIve iveOn (dropVACodingIve iveOn ({ qn with item := items }, r)))
  refine ⟨?_, ?_, ?_, ?_, ?_, ?_⟩
  · rw [c1, b1, a1]
  · rw [c2, b2, a2]
  · rw [c3, b3, a3]
  · rw [c4, b4]
  · exact c5
  · rw [c6, b5, a5, b6, a4, a6]

theorem findVA_stack (qn : Questionnaire) (hext : extsClean qn.extension = true) :
    findIntVerExts (qn.extension
        ++ (if qn.versionAlgorithmCoding.isSome then
              [{ url := some (toIntVerExtUrl "5.0" "Questionnaire.versionAlgorithm"),
                 valueCoding := qn.versionAlgorithmCoding }] else [])
        ++ (if qn.versionAlgorithmString.isSome then
              [{ url := some (toIntVerExtUrl "5.0" "Questionnaire.versionAlgorithm"),
                 valueString := qn.versionAlgorithmString }] else [])
        ++ (if qn.copyrightLabel.isSome then
              [{ url := some (toIntVerExtUrl "5.0" "Questionnaire.copyrightLabel"),
                 valueString := qn.copyrightLabel }] else []))
      "5.0" "Questionnaire" "versionAlgorithm" =
    (if qn.versionAlgorithmCoding.isSome then
       [{ url := some (toIntVerExtUrl "5.0" "Questionnaire.versionAlgorithm"),
          valueCoding := qn.versionAlgorithmCoding }] else [])
    ++ (if qn.versionAlgorithmString.isSome then
       [{ url := some (toIntVerExtUrl "5.0" "Questionnaire.versionAlgorithm"),
          valueString := qn.versionAlgorithmString }] else []) := by
  rw [findIntVerExts_append, findIntVerExts_append, findIntVerExts_append,
    clean_findIntVerExts_nil _ _ _ hext, List.nil_append,
    findIVE_if_match _ _ _ _ _ (by simp +decide),
    findIVE_if_match _ _ _ _ _ (by simp +decide),
    findIVE_if_miss _ _ _ _ _ (by simp +decide),
    List.append_nil]

theorem findCL_stack (qn : Questionnaire) (hext : extsClean qn.extension = true) :
    findIntVerExts (qn.extension
        ++ (if qn.versionAlgorithmCoding.isSome then
              [{ url := some (toIntVerExtUrl "5.0" "Questionnaire.versionAlgorithm"),
                 valueCoding := qn.versionAlgorithmCoding }] else [])
        ++ (if qn.versionAlgorithmString.isSome then
              [{ url := some (toIntVerExtUrl "5.0" "Questionnaire.versionAlgorithm"),
                 valueString := qn.versionAlgorithmString }] else [])
        ++ (if qn.copyrightLabel.isSome then
              [{ url := some (toIntVerExtUrl "5.0" "Questionnaire.copyrightLabel"),
                 valueString := qn.copyrightLabel }] else []))
      "5.0" "Questionnaire" "copyrightLabel" =
    (if qn.copyrightLabel.isSome then
       [{ url := some (toIntVerExtUrl "5.0" "Questionnaire.copyrightLabel"),
          valueString := qn.copyrightLabel }] else []) := by
  rw [findIntVerExts_append, findIntVerExts_append, findIntVerExts_append,
    clean_findIntVerExts_nil _ _ _ hext, List.nil_append,
    findIVE_if_miss _ _ _ _ _ (by simp +decide),
    findIVE_if_miss _ _ _ _ _ (by simp +decide),
    findIVE_if_match _ _ _ _ _ (by simp +decide),
    List.nil_append, List.nil_append]

/-- Claim C3 (corrected): for a valid R5 Questionnaire — resource type
`Questionnaire`, at most one `versionAlgorithm[x]` encoding, R5 item types,
legal `answerConstraint` values, and no same-version (5.0) inter-version
extensions anywhere — converting R5→R4 with the inter-version-extension
option enabled and then converting the result R4→R5 reproduces
`versionAlgorithmCoding`, `versionAlgorithmString` and `copyrightLabel`
exactly and leaves no 5.0-tagged extension on the final document or any
item; the item-level `answerConstraint` values, however, come back only up
to `expectedAC`: an explicit `"optionsOnly"` on an item that has answer
options (or an answer value set) is deleted by `qnR5ToR4` without an
inter-version extension and is absent after the round trip. -/
theorem c3_roundtrip_amended (qn : Questionnaire) (opts2 : ConvOptions)
    (h : r5DocOk qn = true) :
    (r5RoundTrip qn opts2).versionAlgorithmCoding = qn.versionAlgorithmCoding ∧
    (r5RoundTrip qn opts2).versionAlgorithmString = qn.versionAlgorithmString ∧
    (r5RoundTrip qn opts2).copyrightLabel = qn.copyrightLabel ∧
    itemsACs (r5RoundTrip qn opts2).item = itemsExpACs qn.item ∧
    docClean5 (r5RoundTrip qn opts2) = true := by
  have h' := h
  simp only [r5DocOk, Bool.and_eq_true, decide_eq_true_eq, Bool.not_eq_true',
    List.all_eq_true] at h'
  obtain ⟨⟨⟨hq, hva⟩, hext⟩, hitems⟩ := h'
  obtain ⟨items, r, hconv⟩ : ∃ items r,
      convItemList (qnItemR5ToR4 iveOn) qn.item = (items, r) := ⟨_, _, rfl⟩
  obtain ⟨q4, r4, hdrop⟩ : ∃ q4 r4,
      dropCLIve iveOn (dropVAStringIve iveOn (dropVACodingIve iveOn
        ({ qn with item := items }, r))) = (q4, r4) := ⟨_, _, rfl⟩
  have hitemsval : items = qn.item.map (fun it => (qnItemR5ToR4 iveOn it).1) := by
    have hh := convItemList_items (qnItemR5ToR4 iveOn) qn.item
    rw [hconv] at hh
    exact hh
  have hfields := dropStack_fields qn items r
  rw [hdrop] at hfields
  dsimp only at hfields
  obtain ⟨hf1, hf2, hf3, hf4, hf5, hf6⟩ := hfields
  have hmain1 := qnR5ToR4_spec iveOn qn hq items r q4 r4 hconv hdrop
  have hd1 : (Conv.run .r5to4 qn iveOn).data = some q4 := by
    show (qnR5ToR4 iveOn qn).data = some q4
    rw [hmain1]
  have hsteps1 : chainStepsOf "R5" "R4" = [.r5to4, .noop] := rfl
  have hmid : (runConversion "R5" "R4" qn iveOn).result.data =
      some (updateMeta q4 "R5" "R4" iveOn) := by
    show (chainedConverter (chainStepsOf "R5" "R4") "R5" "R4" qn iveOn).result.data = _
    rw [hsteps1, chainedConverter_data, fold_data_first_real _ _ _ _ hd1]
  obtain ⟨M, hMeq⟩ : ∃ M, updateMeta q4 "R5" "R4" iveOn = M := ⟨_, rfl⟩
  rw [hMeq] at hmid
  have hMfields := updateMeta_fields q4 "R5" "R4" iveOn
  rw [hMeq] at hMfields
  obtain ⟨hm1, hm2, hm3, hm4, hm5, hm6⟩ := hMfields
  have hrt : r5RoundTrip qn opts2 =
      (runConversion "R4" "R5" M opts2).result.data.getD M := by
    show (runConversion "R4" "R5"
        ((runConversion "R5" "R4" qn iveOn).result.data.getD qn) opts2).result.data.getD
        ((runConversion "R5" "R4" qn iveOn).result.data.getD qn) = _
    rw [hmid]
    rfl
  have hqM : M.resourceType = some "Questionnaire" := by rw [hm1, hf1, hq]
  obtain ⟨qA, rA, hA⟩ : ∃ qA rA,
      recoverVersionAlgorithm ({ M with item := M.item.map qnItemR4ToR5 },
        ({} : RStat)) = (qA, rA) := ⟨_, _, rfl⟩
  obtain ⟨q5, r5, hrec⟩ : ∃ q5 r5,
      recoverCopyrightLabel (qA, rA) = (q5, r5) := ⟨_, _, rfl⟩
  have hrec0 : recoverCopyrightLabel (recoverVersionAlgorithm
      ({ M with item := M.item.map qnItemR4ToR5 }, ({} : RStat))) = (q5, r5) := by
    rw [hA, hrec]
  have hmain2 := qnR4ToR5_spec M hqM q5 r5 hrec0
  have hd2 : (Conv.run .r4to5 M opts2).data =
      some ({ q5 with extension := removeInterVerExts q5.extension "5.0" }) := by
    show (qnR4ToR5 M).data = _
    rw [hmain2]
  have hsteps2 : chainStepsOf "R4" "R5" = [.noop, .r4to5] := rfl
  have hfin : (runConversion "R4" "R5" M opts2).result.data =
      some (updateMeta ({ q5 with extension := removeInterVerExts q5.extension "5.0" })
        "R4" "R5" opts2) := by
    show (chainedConverter (chainStepsOf "R4" "R5") "R4" "R5" M opts2).result.data = _
    rw [hsteps2, chainedConverter_data, fold_data_second_real _ _ _ _ hd2]
  obtain ⟨F, hFeq⟩ : ∃ F,
      updateMeta ({ q5 with extension := removeInterVerExts q5.extension "5.0" })
        "R4" "R5" opts2 = F := ⟨_, rfl⟩
  rw [hFeq] at hfin
  have hFfields := updateMeta_fields
    ({ q5 with extension := removeInterVerExts q5.extension "5.0" }) "R4" "R5" opts2
  rw [hFeq] at hFfields
  dsimp only at hFfields
  obtain ⟨hg1, hg2, hg3, hg4, hg5, hg6⟩ := hFfields
  have hrtF : r5RoundTrip qn opts2 = F := by
    rw [hrt, hfin]
    rfl
  have hApres := recoverVA_preserves ({ M with item := M.item.map qnItemR4ToR5 }) ({} : RStat)
  rw [hA] at hApres
  dsimp only at hApres
  obtain ⟨hA1, hA2, hA3, hA4⟩ := hApres
  have hCpres := recoverCL_preserves qA rA
  rw [hrec] at hCpres
  dsimp only at hCpres
  obtain ⟨hC1, hC2, hC3, hC4, hC5⟩ := hCpres
  have hextM := hm3.trans hf6
  have hAva : qA.versionAlgorithmCoding = qn.versionAlgorithmCoding ∧
      qA.versionAlgorithmString = qn.versionAlgorithmString := by
    rcases hc1 : qn.versionAlgorithmCoding with _ | c
    · rcases hc2 : qn.versionAlgorithmString with _ | s
      · have hfind : (findIntVerExts ({ M with item := M.item.map qnItemR4ToR5 } :
            Questionnaire).extension "5.0" "Questionnaire" "versionAlgorithm").head? =
            none := by
          show (findIntVerExts M.extension "5.0" "Questionnaire" "versionAlgorithm").head? = _
          rw [hextM, findVA_stack qn hext, hc1, hc2]
          simp
        have hv := recoverVA_of_find_none ({ M with item := M.item.map qnItemR4ToR5 })
          ({} : RStat) hfind
        rw [hA] at hv
        dsimp only at hv
        constructor
        · rw [hv.1, hm4, hf3]
        · rw [hv.2, hm5, hf4]
      · have hfind : (findIntVerExts ({ M with item := M.item.map qnItemR4ToR5 } :
            Questionnaire).extension "5.0" "Questionnaire" "versionAlgorithm").head? =
            some { url := some (toIntVerExtUrl "5.0" "Questionnaire.versionAlgorithm"),
                   valueString := some s } := by
          show (findIntVerExts M.extension "5.0" "Questionnaire" "versionAlgorithm").head? = _
          rw [hextM, findVA_stack qn hext, hc1, hc2]
          simp
        have hv := recoverVA_of_find_string ({ M with item := M.item.map qnItemR4ToR5 })
          ({} : RStat) s hfind
        rw [hA] at hv
        dsimp only at hv
        constructor
        · rw [hv.1, hm4, hf3]
        · rw [hv.2]
    · rcases hc2 : qn.versionAlgorithmString with _ | s
      · have hfind : (findIntVerExts ({ M with item := M.item.map qnItemR4ToR5 } :
            Questionnaire).extension "5.0" "Questionnaire" "versionAlgorithm").head? =
            some { url := some (toIntVerExtUrl "5.0" "Questionnaire.versionAlgorithm"),
                   valueCoding := some c } := by
          show (findIntVerExts M.extension "5.0" "Questionnaire" "versionAlgorithm").head? = _
          rw [hextM, findVA_stack qn hext, hc1, hc2]
          simp
        have hv := recoverVA_of_find_coding ({ M with item := M.item.map qnItemR4ToR5 })
          ({} : RStat) c hfind
        rw [hA] at hv
        dsimp only at hv
        constructor
        · rw [hv.1]
        · rw [hv.2, hm5, hf4]
      · simp [hc1, hc2] at hva
  have hAcl : q5.copyrightLabel = qn.copyrightLabel := by
    rcases hc3 : qn.copyrightLabel with _ | t
    · have hfind : (findIntVerExts qA.extension "5.0" "Questionnaire"
          "copyrightLabel").head? = none := by
        rw [hA3]
        show (findIntVerExts M.extension "5.0" "Questionnaire" "copyrightLabel").head? = _
        rw [hextM, findCL_stack qn hext, hc3]
        simp
      have hv := recoverCL_of_find_none qA rA hfind
      rw [hrec] at hv
      dsimp only at hv
      rw [hv, hA4, hm6, hf5]
    · have hfind : (findIntVerExts qA.extension "5.0" "Questionnaire"
          "copyrightLabel").head? =
          some { url := some (toIntVerExtUrl "5.0" "Questionnaire.copyrightLabel"),
                 valueString := some t } := by
        rw [hA3]
        show (findIntVerExts M.extension "5.0" "Questionnaire" "copyrightLabel").head? = _
        rw [hextM, findCL_stack qn hext, hc3]
        simp
      have hv := recoverCL_of_find_string qA rA t hfind
      rw [hrec] at hv
      dsimp only at hv
      rw [hv]
  have hFitem : F.item =
      qn.item.map (fun it => qnItemR4ToR5 (qnItemR5ToR4 iveOn it).1) := by
    rw [hg2, hC2, hA2, hm2, hf2, hitemsval, List.map_map]
    rfl
  rw [hrtF]
  refine ⟨?_, ?_, ?_, ?_, ?_⟩
  · rw [hg4, hC4]
    exact hAva.1
  · rw [hg5, hC5]
    exact hAva.2
  · exact hg6.trans hAcl
  · rw [hFitem]
    unfold itemsACs itemsExpACs
    rw [List.map_map]
    congr 1
    apply List.map_congr_left
    intro it hit
    simp only [Function.comp_apply]
    exact itemACs_roundtrip it (hitems it hit)
  · unfold docClean5
    rw [Bool.and_eq_true]
    constructor
    · rw [hg3]
      exact extsClean_removeInterVerExts _
    · rw [List.all_eq_true]
      intro y hy
      rw [hFitem] at hy
      obtain ⟨x, hx, rfl⟩ := List.mem_map.mp hy
      exact itemClean5_after_up _

/-- Counterexample to the literal claim C3: an item carrying the explicit R5
default `answerConstraint: "optionsOnly"` next to `answerOption` loses the
value in the round trip — `qnR5ToR4` deletes it without writing an
inter-version extension (qnvconv_r4_r5.js lines 139-141), so the R4→R5 leg
has nothing to recover and the final item's `answerConstraint` is absent
rather than `"optionsOnly"`. -/
theorem c3_counterexample :
    itemsACs qnC3bad.item = [some "optionsOnly"] ∧
    itemsACs (r5RoundTrip qnC3bad {}).item = [none] := ⟨rfl, rfl⟩

/-- Witness for the amended C3 round-trip law at the concrete document
`qnC3good` (versionAlgorithmCoding, copyrightLabel and an `optionsOrType`
constraint all reproduced; no 5.0-tagged extension remains). -/
theorem c3_roundtrip_amended_witness :
    r5DocOk qnC3good = true ∧
    ((r5RoundTrip qnC3good {}).versionAlgorithmCoding = qnC3good.versionAlgorithmCoding ∧
     (r5RoundTrip qnC3good {}).versionAlgorithmString = qnC3good.versionAlgorithmString ∧
     (r5RoundTrip qnC3good {}).copyrightLabel = qnC3good.copyrightLabel ∧
     itemsACs (r5RoundTrip qnC3good {}).item = itemsExpACs qnC3good.item ∧
     docClean5 (r5RoundTrip qnC3good {}) = true) :=
  ⟨by decide, c3_roundtrip_amended qnC3good {} (by decide)⟩
